import Mathlib

/-!
Verification development for the half-edge mesh engine of lvr2
(`HalfEdgeMesh.cpp`, namespace `lssr`).

The C++ code is a pointer-linked mutable graph.  We embed it shallowly as a
functional state: every vertex, half-edge, face and region lives in a
handle-indexed store (`Nat` handles), and each C++ member function becomes a
total Lean function `Mesh → … → Mesh`.  Undefined behaviour of the C++
(null/freed-pointer dereference, `erase(find …)` with a failing `find`,
out-of-range `operator[]`) poisons the state: it clears the `ok` flag, which
no operation ever sets back, and aborts the rest of the current operation.
Every theorem about an executed operation requires `ok = true` of the final
state, i.e. that no undefined behaviour occurred on the way.  Scalars are
`ℚ`: the claims under study are topological or concern exact
copies/negations/restorations of coordinates, which float arithmetic
performs exactly like `ℚ` does on the inputs used here (a comment marks the
one spot where `float` rounding could differ, the midpoint computation,
whose exact value no claim depends on).

Loops that are not structurally bounded in C++ (recursive region growing,
hole retriangulation) take an explicit fuel argument; fuel is an artifact of
the embedding, and the theorems about these functions are proved for every
fuel, or come with an explicit fuel-sufficiency statement.
-/

namespace Lvr

/-- Exact 3-vector of rationals standing for the C++ `VertexT`/`NormalT`
float vectors. -/
structure Vec3 where
  x : ℚ
  y : ℚ
  z : ℚ
deriving DecidableEq, Repr

/-- Componentwise sum, as `operator+` of the C++ vector type. -/
def Vec3.add (a b : Vec3) : Vec3 := ⟨a.x + b.x, a.y + b.y, a.z + b.z⟩

/-- Scalar multiple, as `operator*(float)` of the C++ vector type. -/
def Vec3.scale (q : ℚ) (a : Vec3) : Vec3 := ⟨q * a.x, q * a.y, q * a.z⟩

/-- Componentwise negation (used by `finalize`, which emits `-normal[i]`). -/
def Vec3.neg (a : Vec3) : Vec3 := ⟨-a.x, -a.y, -a.z⟩

/-- Componentwise difference. -/
def Vec3.sub (a b : Vec3) : Vec3 := ⟨a.x - b.x, a.y - b.y, a.z - b.z⟩

/-- Dot product, as `operator*` between C++ vectors. -/
def Vec3.dot (a b : Vec3) : ℚ := a.x * b.x + a.y * b.y + a.z * b.z

/-- Cross product, as `cross` of the C++ vector type. -/
def Vec3.cross (a b : Vec3) : Vec3 :=
  ⟨a.y * b.z - a.z * b.y, a.z * b.x - a.x * b.z, a.x * b.y - a.y * b.x⟩

/-- Handle-indexed store.  `Store.set`/`Store.del` prepend, `Store.find`
takes the first binding; a `none` binding is a tombstone left by `delete`,
so reading a freed handle yields `none` (the C++ would dereference freed
memory). -/
abbrev Store (α : Type) : Type := List (Nat × Option α)

/-- Read a handle from the store. -/
def Store.find {α : Type} : Store α → Nat → Option α
  | [], _ => none
  | (k, v) :: rest, h => if h = k then v else Store.find rest h

/-- Overwrite a handle with a record. -/
def Store.set {α : Type} (s : Store α) (k : Nat) (v : α) : Store α :=
  (k, some v) :: s

/-- Free a handle (tombstone). -/
def Store.del {α : Type} (s : Store α) (k : Nat) : Store α :=
  (k, none) :: s

/-- C++ `HalfEdgeVertex`: position, normal, outgoing and incoming half-edge
lists (`out`, `in`). -/
structure HVertex where
  pos : Vec3
  nrm : Vec3
  outE : List Nat
  inE : List Nat
deriving DecidableEq, Repr

/-- C++ `HalfEdge`: start and end vertex, pair edge, owning face (null when
boundary), `next` edge (null when no face owns it), transient `used` flag.
The C++ field `end` is spelled `endV` (`end` is reserved in Lean). -/
structure HEdge where
  start : Nat
  endV : Nat
  pair : Nat
  face : Option Nat
  next : Option Nat
  used : Bool
deriving DecidableEq, Repr

/-- C++ `HalfEdgeFace`: one edge of its cycle (`m_edge`), the face normal,
the region back-pointer (`m_region`, null before segmentation) and the
transient `m_used` flag. -/
structure HFace where
  edge : Nat
  nrm : Vec3
  region : Option Nat
  usedF : Bool
deriving DecidableEq, Repr

/-- Modelled from the spec: `Region` (not under `src/`) keeps a list of
borrowed face references (`m_faces`); `Region::addFace` appends the face and
sets the face's `m_region` back-pointer.  Only this part of `Region` is
needed by the code under study; the plane-fit fields play no role in the
claims. -/
structure RegionRec where
  rfaces : List Nat
deriving DecidableEq, Repr

/-- The mesh state: the four stores plus the `m_vertices` / `m_faces`
vectors (ordered lists of live handles), the allocation counter, and the
`ok` flag, cleared (never restored) when the run hits C++ undefined
behaviour. -/
structure Mesh where
  vstore : Store HVertex
  estore : Store HEdge
  fstore : Store HFace
  rstore : Store RegionRec
  verts : List Nat
  faces : List Nat
  nextId : Nat
  ok : Bool
deriving DecidableEq, Repr

/-- The empty mesh. -/
def Mesh.empty : Mesh := ⟨[], [], [], [], [], [], 0, true⟩

/-- Mark the state as having gone through undefined behaviour. -/
def Mesh.poison (m : Mesh) : Mesh := { m with ok := false }

def Mesh.getV (m : Mesh) (h : Nat) : Option HVertex := m.vstore.find h
def Mesh.getE (m : Mesh) (h : Nat) : Option HEdge := m.estore.find h
def Mesh.getF (m : Mesh) (h : Nat) : Option HFace := m.fstore.find h
def Mesh.getR (m : Mesh) (h : Nat) : Option RegionRec := m.rstore.find h

def Mesh.setV (m : Mesh) (h : Nat) (v : HVertex) : Mesh :=
  { m with vstore := m.vstore.set h v }
def Mesh.setE (m : Mesh) (h : Nat) (e : HEdge) : Mesh :=
  { m with estore := m.estore.set h e }
def Mesh.setF (m : Mesh) (h : Nat) (f : HFace) : Mesh :=
  { m with fstore := m.fstore.set h f }
def Mesh.setR (m : Mesh) (h : Nat) (r : RegionRec) : Mesh :=
  { m with rstore := m.rstore.set h r }

/-- Run the continuation on the value when the read succeeded; poison the
state otherwise (the C++ would have dereferenced a dead pointer). -/
def Mesh.withOpt {α : Type} (m : Mesh) (x : Option α) (k : α → Mesh) : Mesh :=
  match x with
  | some a => k a
  | none => m.poison

/-- Update an edge record in place; dereferencing a dead handle poisons. -/
def Mesh.updE (m : Mesh) (h : Nat) (f : HEdge → HEdge) : Mesh :=
  match m.getE h with
  | some e => m.setE h (f e)
  | none => m.poison

/-- Update a vertex record in place; dereferencing a dead handle poisons. -/
def Mesh.updV (m : Mesh) (h : Nat) (f : HVertex → HVertex) : Mesh :=
  match m.getV h with
  | some v => m.setV h (f v)
  | none => m.poison

/-- C++ `vector::erase(find(l, x))`: removing an element that is absent is
undefined behaviour, hence `none`. -/
def eraseFind (l : List Nat) (x : Nat) : Option (List Nat) :=
  if x ∈ l then some (l.erase x) else none

/-- C++ `HalfEdgeMesh::addVertex`: push a fresh `HalfEdgeVertex` onto
`m_vertices` (and advance `m_globalIndex`, which our `verts` length tracks).
The fresh handle comes from the allocation counter. -/
def addVertex (m : Mesh) (p : Vec3) : Mesh :=
  let h := m.nextId
  { m with
    vstore := m.vstore.set h ⟨p, ⟨0, 0, 0⟩, [], []⟩
    verts := m.verts ++ [h]
    nextId := m.nextId + 1 }

/-- C++ `HalfEdgeMesh::addNormal`: store a normal at the most recently added
vertex (`m_vertices[m_globalIndex - 1]`); UB on an empty mesh. -/
def addNormal (m : Mesh) (n : Vec3) : Mesh :=
  m.withOpt m.verts.getLast? fun h =>
  m.updV h (fun v => { v with nrm := n })

/-- C++ `HalfEdgeMesh::deleteVertex`: erase from `m_vertices` and free. -/
def deleteVertex (m : Mesh) (h : Nat) : Mesh :=
  m.withOpt (eraseFind m.verts h) fun vs =>
  { m with verts := vs, vstore := m.vstore.del h }

/-- C++ `HalfEdgeMesh::halfEdgeToVertex(v, next)`: scan `v->in` for edges
with `end == v && start == next`, keeping the last match.  This is a pure
read; the outer `none` marks UB (a stale entry or a dead vertex handle). -/
def halfEdgeToVertex (m : Mesh) (v nxt : Nat) : Option (Option Nat) :=
  match m.getV v with
  | none => none
  | some vr =>
      vr.inE.foldlM
        (fun acc h =>
          match m.getE h with
          | none => none
          | some cur =>
              some (if cur.endV = v ∧ cur.start = nxt then some h else acc))
        none

/-- One directed-edge resolution step of `HalfEdgeMesh::addTriangle`
(body of the `k` loop, lines 87–152): if `halfEdgeToVertex(current, next)`
finds an edge, take its pair and point it at the new face; otherwise
allocate a fresh edge/pair and register both in the endpoints'
outgoing/incoming lists.  Returns the resolved edge handle (0 after UB,
never used because the state is then poisoned). -/
def resolveEdge (m : Mesh) (fh cur nxt : Nat) : Mesh × Nat :=
  match halfEdgeToVertex m cur nxt with
  | none => (m.poison, 0)
  | some (some h) =>
      (match m.getE h with
       | none => (m.poison, 0)
       | some e =>
           (m.updE e.pair (fun p => { p with face := some fh }), e.pair))
  | some none =>
      let eh := m.nextId
      let ph := m.nextId + 1
      let e : HEdge := ⟨cur, nxt, ph, some fh, none, false⟩
      let p : HEdge := ⟨nxt, cur, eh, none, none, false⟩
      let m := { m with estore := (m.estore.set eh e).set ph p, nextId := m.nextId + 2 }
      let m := m.updV cur (fun v => { v with outE := v.outE ++ [eh], inE := v.inE ++ [ph] })
      let m := m.updV nxt (fun v => { v with inE := v.inE ++ [eh], outE := v.outE ++ [ph] })
      (m, eh)

/-- Modelled from the spec (the `HalfEdgeFace` header is not under `src/`):
`calc_normal` computes the face normal from two edge vectors of the
triangle.  We use the cross product of the two edge vectors at the cycle's
first vertex; no claim depends on the value (C++ also normalizes, which has
no exact rational counterpart). -/
def calcNormal (m : Mesh) (e0h : Nat) : Option Vec3 := do
  let e0 ← m.getE e0h
  let e1h ← e0.next
  let e1 ← m.getE e1h
  let v0 ← m.getV e0.start
  let v1 ← m.getV e0.endV
  let v2 ← m.getV e1.endV
  some (Vec3.cross (v1.pos.sub v0.pos) (v2.pos.sub v0.pos))

/-- C++ `HalfEdgeMesh::addTriangle(a, b, c)` (vertex indices into
`m_vertices`): resolve the three directed edges `a→b`, `b→c`, `c→a`, link
their `next` references into a 3-cycle, build the face and push it onto
`m_faces`. -/
def addTriangle (m : Mesh) (a b c : Nat) : Mesh :=
  m.withOpt (m.verts.get? a) fun va =>
  m.withOpt (m.verts.get? b) fun vb =>
  m.withOpt (m.verts.get? c) fun vc =>
  let fh := m.nextId
  let m := { m with nextId := m.nextId + 1 }
  let r0 := resolveEdge m fh va vb
  let r1 := resolveEdge r0.1 fh vb vc
  let r2 := resolveEdge r1.1 fh vc va
  let m := r2.1
  let m := m.updE r0.2 (fun e => { e with next := some r1.2 })
  let m := m.updE r1.2 (fun e => { e with next := some r2.2 })
  let m := m.updE r2.2 (fun e => { e with next := some r0.2 })
  m.withOpt (calcNormal m r0.2) fun n =>
  { m.setF fh ⟨r0.2, n, none, false⟩ with faces := m.faces ++ [fh] }

/-- Modelled from the spec: the reuse test exactly as the spec words it —
an existing half-edge running in the opposite direction between the same
two vertices that additionally has no assigned face.  Identical to the
code's `halfEdgeToVertex` scan except for the extra `cur.face = none`
conjunct; kept for comparison with the code's behaviour. -/
def halfEdgeToVertexSpec (m : Mesh) (v nxt : Nat) : Option (Option Nat) :=
  match m.getV v with
  | none => none
  | some vr =>
      vr.inE.foldlM
        (fun acc h =>
          match m.getE h with
          | none => none
          | some cur =>
              some (if cur.endV = v ∧ cur.start = nxt ∧ cur.face = none
                    then some h else acc))
        none

/-- Modelled from the spec: the edge-resolution step with the spec's
face-free reuse condition in place of the code's unconditional one;
otherwise identical to `resolveEdge`. -/
def resolveEdgeSpec (m : Mesh) (fh cur nxt : Nat) : Mesh × Nat :=
  match halfEdgeToVertexSpec m cur nxt with
  | none => (m.poison, 0)
  | some (some h) =>
      (match m.getE h with
       | none => (m.poison, 0)
       | some e =>
           (m.updE e.pair (fun p => { p with face := some fh }), e.pair))
  | some none =>
      let eh := m.nextId
      let ph := m.nextId + 1
      let e : HEdge := ⟨cur, nxt, ph, some fh, none, false⟩
      let p : HEdge := ⟨nxt, cur, eh, none, none, false⟩
      let m := { m with estore := (m.estore.set eh e).set ph p, nextId := m.nextId + 2 }
      let m := m.updV cur (fun v => { v with outE := v.outE ++ [eh], inE := v.inE ++ [ph] })
      let m := m.updV nxt (fun v => { v with inE := v.inE ++ [eh], outE := v.outE ++ [ph] })
      (m, eh)

/-- Modelled from the spec: `addTriangle` built on the spec's reuse
condition, for comparison with the code's `addTriangle`. -/
def addTriangleSpec (m : Mesh) (a b c : Nat) : Mesh :=
  m.withOpt (m.verts.get? a) fun va =>
  m.withOpt (m.verts.get? b) fun vb =>
  m.withOpt (m.verts.get? c) fun vc =>
  let fh := m.nextId
  let m := { m with nextId := m.nextId + 1 }
  let r0 := resolveEdgeSpec m fh va vb
  let r1 := resolveEdgeSpec r0.1 fh vb vc
  let r2 := resolveEdgeSpec r1.1 fh vc va
  let m := r2.1
  let m := m.updE r0.2 (fun e => { e with next := some r1.2 })
  let m := m.updE r1.2 (fun e => { e with next := some r2.2 })
  let m := m.updE r2.2 (fun e => { e with next := some r0.2 })
  m.withOpt (calcNormal m r0.2) fun n =>
  { m.setF fh ⟨r0.2, n, none, false⟩ with faces := m.faces ++ [fh] }

/-- Observation used by the shared-edge sentence of the builder's
specification: how many live half-edges run between vertices `u` and `v`
(in either direction); one physical pair contributes `2`. -/
def countEdgesBetween (m : Mesh) (u v : Nat) : Nat :=
  ((List.range m.nextId).filter fun eh =>
    match m.getE eh with
    | some e => decide ((e.start = u ∧ e.endV = v) ∨ (e.start = v ∧ e.endV = u))
    | none => false).length

/-- Observation for the spec's reuse condition: is there a live half-edge
running `nxt → cur` with no assigned face anywhere in the mesh? -/
def oppositeFreeEdge (m : Mesh) (cur nxt : Nat) : Bool :=
  (List.range m.nextId).any fun eh =>
    match m.getE eh with
    | some e => decide (e.start = nxt ∧ e.endV = cur ∧ e.face = none)
    | none => false

/-- Walk `k` steps of `next` from a handle: the C++ face accessor
`(*f)[k]` is `m_edge` followed by `k` `next` steps. -/
def nextPow (m : Mesh) (h : Nat) : Nat → Option Nat
  | 0 => some h
  | k + 1 => do
      let e ← m.getE h
      let h' ← e.next
      nextPow m h' k

/-- C++ `(*f)[k]`: the `k`-th edge of the face cycle (modelled from its
uses in `deleteFace`/`regionGrowing`/`fillHoles`: `m_edge` advanced `k`
times along `next`). -/
def faceEdge (m : Mesh) (fh k : Nat) : Option Nat := do
  let f ← m.getF fh
  nextPow m f.edge k

/-- C++ `(*f)(k)`: the `k`-th vertex of the face, which is the end vertex
of `(*f)[k]` (this is the reading consistent with `deleteFace`, which
frees `(*f)(0)/(*f)(2)` exactly when the edge `(*f)[0]` between them
dies, and similarly for the other two edges). -/
def faceVertex (m : Mesh) (fh k : Nat) : Option Nat := do
  let eh ← faceEdge m fh k
  let e ← m.getE eh
  some e.endV

/-- Unlink one half-edge from its start vertex's `out` list and its end
vertex's `in` list (the two `erase(find(...))` calls of
`HalfEdgeMesh::deleteEdge`); a failing `find` is UB. -/
def unlinkEdge (m : Mesh) (eh : Nat) : Mesh :=
  m.withOpt (m.getE eh) fun e =>
  m.withOpt (m.getV e.start) fun sv =>
  m.withOpt (eraseFind sv.outE eh) fun so =>
  let m := m.setV e.start { sv with outE := so }
  m.withOpt (m.getV e.endV) fun ev =>
  m.withOpt (eraseFind ev.inE eh) fun ei =>
  m.setV e.endV { ev with inE := ei }

/-- C++ `HalfEdgeMesh::deleteEdge(edge, deletePair)`: unlink from the start
vertex's `out` and the end vertex's `in` lists (and symmetrically for the
pair when requested), then free. -/
def deleteEdge (m : Mesh) (eh : Nat) (delPair : Bool) : Mesh :=
  m.withOpt (m.getE eh) fun e =>
  let m := unlinkEdge m eh
  let m :=
    if delPair then
      let m := unlinkEdge m e.pair
      { m with estore := m.estore.del e.pair }
    else m
  { m with estore := m.estore.del eh }

/-- Helper for the vertex cleanup in `deleteFace`: free the vertex when its
outgoing list became empty (`if(p->out.size()==0) deleteVertex(p)`). -/
def delVertexIfBare (m : Mesh) (vh : Nat) : Mesh :=
  m.withOpt (m.getV vh) fun v =>
  if v.outE = [] then deleteVertex m vh else m

/-- One of the three conditional blocks of `deleteFace`: when the pair of
the cycle edge also carries no face, delete the edge pair and free either
endpoint that has no outgoing edges left. -/
def delEdgeIfBare (m : Mesh) (eh q1 q2 : Nat) : Mesh :=
  m.withOpt (m.getE eh) fun e =>
  m.withOpt (m.getE e.pair) fun p =>
  if p.face = none then
    let m := deleteEdge m eh true
    let m := delVertexIfBare m q1
    delVertexIfBare m q2
  else m

/-- C++ `HalfEdgeMesh::deleteFace(f)`: clear face/`next` on the three cycle
edges, then delete each edge whose pair has also become faceless, freeing
endpoints left without outgoing edges; finally erase the face. -/
def deleteFace (m : Mesh) (fh : Nat) : Mesh :=
  m.withOpt (faceEdge m fh 0) fun startE =>
  m.withOpt (faceEdge m fh 1) fun nextE =>
  m.withOpt (faceEdge m fh 2) fun lastE =>
  m.withOpt (faceVertex m fh 0) fun p1 =>
  m.withOpt (faceVertex m fh 1) fun p2 =>
  m.withOpt (faceVertex m fh 2) fun p3 =>
  let m := m.updE startE (fun e => { e with face := none, next := none })
  let m := m.updE nextE (fun e => { e with face := none, next := none })
  let m := m.updE lastE (fun e => { e with face := none, next := none })
  let m := delEdgeIfBare m startE p1 p3
  let m := delEdgeIfBare m nextE p1 p2
  let m := delEdgeIfBare m lastE p3 p2
  m.withOpt (eraseFind m.faces fh) fun fs =>
  { m with faces := fs, fstore := m.fstore.del fh }

/-- The per-side redundant-edge removal of `collapseEdge` (lines 396–411):
when the given side record carries a face, re-pair the face's two other
edges' pairs onto each other and delete those two edges (keeping their
pairs). -/
def collapseSide (m : Mesh) (side : HEdge) : Mesh :=
  if side.face ≠ none then
    m.withOpt side.next fun n1h =>
    m.withOpt (m.getE n1h) fun n1 =>
    m.withOpt n1.next fun n2h =>
    m.withOpt (m.getE n2h) fun n2 =>
    let m := m.updE n2.pair (fun x => { x with pair := n1.pair })
    let m := m.updE n1.pair (fun x => { x with pair := n2.pair })
    let m := deleteEdge m n2h false
    deleteEdge m n1h false
  else m

/-- Erase a face from `m_faces` and free it (`m_faces.erase(find(...));
delete face`), used twice by `collapseEdge`. -/
def eraseFaceOf (m : Mesh) (f : Option Nat) : Mesh :=
  match f with
  | some fh =>
      m.withOpt (eraseFind m.faces fh) fun fs =>
      { m with faces := fs, fstore := m.fstore.del fh }
  | none => m

/-- One step of the re-homing loops of `collapseEdge`: re-point one of
`p2`'s outgoing edges at `p1` and append it to `p1->out` (`asOut = true`),
or the incoming variant. -/
def rehomeStep (p1 : Nat) (asOut : Bool) (m : Mesh) (h : Nat) : Mesh :=
  if asOut then
    let m := m.updE h (fun x => { x with start := p1 })
    m.updV p1 (fun v => { v with outE := v.outE ++ [h] })
  else
    let m := m.updE h (fun x => { x with endV := p1 })
    m.updV p1 (fun v => { v with inE := v.inE ++ [h] })

/-- C++ `HalfEdgeMesh::collapseEdge(edge)`: move `start` to the midpoint,
re-pair around each adjacent face's two other edges and delete them, delete
the adjacent faces, delete the edge pair, re-home every edge of `end` onto
`start`, and delete `end`. -/
def collapseEdge (m : Mesh) (eh : Nat) : Mesh :=
  m.withOpt (m.getE eh) fun e =>
  let p1 := e.start
  let p2 := e.endV
  -- p1->m_position = (p1->m_position + p2->m_position)*0.5
  -- (`float` would round this midpoint; no claim depends on its value)
  m.withOpt (m.getV p1) fun v1 =>
  m.withOpt (m.getV p2) fun v2 =>
  let m := m.setV p1 { v1 with pos := Vec3.scale (1/2) (v1.pos.add v2.pos) }
  -- delete the redundant edges of edge->face, then of edge->pair->face
  let m := collapseSide m e
  m.withOpt (m.getE eh) fun e1 =>
  m.withOpt (m.getE e1.pair) fun p =>
  let m := collapseSide m p
  -- delete faces (pair side first, as in the source)
  m.withOpt (m.getE eh) fun e2 =>
  m.withOpt (m.getE e2.pair) fun p2r =>
  let m := eraseFaceOf m p2r.face
  m.withOpt (m.getE eh) fun e3 =>
  let m := eraseFaceOf m e3.face
  -- delete edge and its pair
  let m := deleteEdge m eh true
  -- re-home p2's outgoing and incoming edges onto p1
  m.withOpt (m.getV p2) fun v2r =>
  let m := v2r.outE.foldl (rehomeStep p1 true) m
  m.withOpt (m.getV p2) fun v2r' =>
  let m := v2r'.inE.foldl (rehomeStep p1 false) m
  deleteVertex m p2

/-- First stage of `flipEdge`'s body: relink the quad's outer `next`
pointers across the diagonal (`edge->next->next->next = edge->pair->next`
and symmetrically). -/
def flipRelink (m : Mesh) (n1h m1h : Nat) : Mesh :=
  m.withOpt (m.getE n1h) fun n1 =>
  m.withOpt n1.next fun n2h =>
  let m := m.updE n2h (fun x => { x with next := some m1h })
  m.withOpt (m.getE m1h) fun m1r =>
  m.withOpt m1r.next fun m2h =>
  m.updE m2h (fun x => { x with next := some n1h })

/-- Allocation of one replacement half-edge in `flipEdge`: its `next` is
the second edge along `next` from `fromH`, its face that edge's face; the
new edge is pushed on its start's `out` and its end's `in` lists. -/
def flipMakeEdge (m : Mesh) (h s e pr fromH : Nat) : Mesh :=
  m.withOpt (m.getE fromH) fun fr =>
  m.withOpt fr.next fun nx =>
  m.withOpt (m.getE nx) fun nxr =>
  let m := m.setE h ⟨s, e, pr, nxr.face, some nx, false⟩
  let m := m.updV s (fun v => { v with outE := v.outE ++ [h] })
  m.updV e (fun v => { v with inE := v.inE ++ [h] })

/-- Point the face owned by edge `h` back at `h`
(`newEdge->face->m_edge = newEdge`). -/
def flipFaceEdge (m : Mesh) (h : Nat) : Mesh :=
  m.withOpt (m.getE h) fun er =>
  m.withOpt er.face fun fh =>
  m.withOpt (m.getF fh) fun f =>
  m.setF fh { f with edge := h }

/-- Propagate edge `h`'s face reference to the two following edges of its
cycle (`e->next->face = e->face; e->next->next->face = e->face`). -/
def flipPushFace (m : Mesh) (h : Nat) : Mesh :=
  m.withOpt (m.getE h) fun er =>
  m.withOpt er.next fun a1 =>
  let m := m.updE a1 (fun x => { x with face := er.face })
  m.withOpt (m.getE a1) fun a1r =>
  m.withOpt a1r.next fun a2 =>
  m.updE a2 (fun x => { x with face := er.face })

/-- Recompute the normal of the face owned by edge `h` from its current
cycle (`e->face->calc_normal()`). -/
def flipRecalc (m : Mesh) (h : Nat) : Mesh :=
  m.withOpt (m.getE h) fun er =>
  m.withOpt er.face fun fh =>
  m.withOpt (m.getF fh) fun f =>
  m.withOpt (calcNormal m f.edge) fun n =>
  m.setF fh { f with nrm := n }

/-- C++ `HalfEdgeMesh::flipEdge(edge)`: when both sides carry a face, swap
the diagonal of the enclosing quad — relink `next` pointers, allocate the
replacement pair, re-point the faces and the four quad edges, recompute both
normals, and delete the original pair.  When either side is boundary the
body is skipped and the mesh is returned unchanged. -/
def flipEdge (m : Mesh) (eh : Nat) : Mesh :=
  m.withOpt (m.getE eh) fun e =>
  m.withOpt (m.getE e.pair) fun p =>
  if p.face ≠ none ∧ e.face ≠ none then
    m.withOpt e.next fun n1h =>
    m.withOpt (m.getE n1h) fun n1 =>
    m.withOpt p.next fun m1h =>
    m.withOpt (m.getE m1h) fun m1 =>
    let newEdgeStart := n1.endV
    let newEdgeEnd := m1.endV
    let m := flipRelink m n1h m1h
    -- create the new edge and its pair
    let neh := m.nextId
    let nph := m.nextId + 1
    let m := { m with nextId := m.nextId + 2 }
    let m := flipMakeEdge m neh newEdgeStart newEdgeEnd nph m1h
    let m := flipMakeEdge m nph newEdgeEnd newEdgeStart neh n1h
    -- update face->edge pointers
    let m := flipFaceEdge m neh
    let m := flipFaceEdge m nph
    -- update next pointers: edge->next->next = newEdge, and symmetrically
    let m := m.updE n1h (fun x => { x with next := some neh })
    let m := m.updE m1h (fun x => { x with next := some nph })
    -- update edge->face pointers on both new cycles
    let m := flipPushFace m neh
    let m := flipPushFace m nph
    -- recalculate face normals
    let m := flipRecalc m neh
    let m := flipRecalc m nph
    -- delete the old edge (and its pair)
    deleteEdge m eh true
  else
    m

/-! ## Guarded collapse (`safeCollapseEdge`, lines 711–768) -/

/-- The cap/bowtie ("huetchen") test for one side of the edge (lines
715–720): when the side and both neighbouring pairs carry faces, reject if
`side->next->pair->next->next == side->next->next->pair->next->pair`.
Short-circuit evaluation of the C++ `&&` chain is preserved; `none` is a
null/dead dereference. -/
def huetchenSide (m : Mesh) (side : HEdge) : Option Bool :=
  match side.face with
  | none => some false
  | some _ => do
      let n1h ← side.next
      let n1 ← m.getE n1h
      let n1p ← m.getE n1.pair
      if n1p.face = none then pure false
      else do
        let n2h ← n1.next
        let n2 ← m.getE n2h
        let n2p ← m.getE n2.pair
        if n2p.face = none then pure false
        else do
          let n1pn ← n1p.next
          let n1pnr ← m.getE n1pn
          let n2pn ← n2p.next
          let n2pnr ← m.getE n2pn
          pure (n1pnr.next = some n2pnr.pair)

/-- The faceless-edge test for one side (lines 731–733): the side carries a
face but both other edges of its triangle have boundary pairs. -/
def facelessSide (m : Mesh) (side : HEdge) : Option Bool :=
  match side.face with
  | none => some false
  | some _ => do
      let n1h ← side.next
      let n1 ← m.getE n1h
      let n1p ← m.getE n1.pair
      if n1p.face ≠ none then pure false
      else do
        let n2h ← n1.next
        let n2 ← m.getE n2h
        let n2p ← m.getE n2.pair
        pure (n2p.face = none)

/-- Count the outgoing edges of the start vertex ending at the end vertex
(the redundant-edge check, lines 723–728). -/
def countOutTo (m : Mesh) (l : List Nat) (target : Nat) : Option Nat :=
  l.foldlM
    (fun acc o => (m.getE o).map fun oe => if oe.endV = target then acc + 1 else acc)
    0

/-- Inner loop of the triangle-hole test: scan the second hop's candidates.
The second edge is only dereferenced when the first hop is faceless, as in
the C++ `&&` chain. -/
def triHoleInner (m : Mesh) (estart : Nat) (o1faceless : Bool) :
    List Nat → Option Bool
  | [] => some false
  | o2 :: rest =>
      if o1faceless then do
        let o2e ← m.getE o2
        if o2e.face = none ∧ o2e.endV = estart then pure true
        else triHoleInner m estart o1faceless rest
      else triHoleInner m estart o1faceless rest

/-- Outer loop of the triangle-hole test (lines 736–739): a two-edge
faceless path from the end vertex back to the start vertex rejects the
collapse.  The first hop's end vertex is dereferenced for its outgoing
list regardless of the face test (the C++ inner loop bound). -/
def triHoleScan (m : Mesh) (estart : Nat) : List Nat → Option Bool
  | [] => some false
  | o1 :: rest => do
      let o1e ← m.getE o1
      let v ← m.getV o1e.endV
      let inner ← triHoleInner m estart (decide (o1e.face = none)) v.outE
      if inner then pure true else triHoleScan m estart rest

/-- One flicker loop (lines 745–751 and 756–762): for each outgoing edge
whose pair's face differs from `edge->pair->face`, when that face exists
ask its region's `detectFlicker` (modelled from the spec as the
state-dependent heuristic `flick`, taking the region and face handles;
dereferencing a face with no region is UB). -/
def flickerScan (flick : Mesh → Nat → Nat → Bool) (m : Mesh)
    (excl : Option Nat) : List Nat → Option Bool
  | [] => some false
  | o :: rest => do
      let oe ← m.getE o
      let op ← m.getE oe.pair
      if op.face ≠ excl then
        match op.face with
        | some g => do
            let gf ← m.getF g
            let rid ← gf.region
            if flick m rid g then pure true
            else flickerScan flick m excl rest
        | none => flickerScan flick m excl rest
      else flickerScan flick m excl rest

/-- The flicker phase and final collapse of `safeCollapseEdge` (lines
742–767): move `start` to the midpoint and scan its umbrella — a report
restores `start` and fails; then move `end` to the midpoint of the CURRENT
positions and scan its umbrella — a report restores only `end` (leaving
`start` moved) and fails; otherwise delegate to `collapseEdge`. -/
def safeCollapsePhase2 (flick : Mesh → Nat → Nat → Bool) (m : Mesh)
    (eh : Nat) (e p : HEdge) (sv ev : HVertex) : Mesh × Bool :=
  let m1 := m.setV e.start { sv with pos := Vec3.scale (1/2) (sv.pos.add ev.pos) }
  match flickerScan flick m1 p.face sv.outE with
  | none => (m1.poison, false)
  | some true => (m1.setV e.start sv, false)
  | some false =>
      match m1.getV e.start with
      | none => (m1.poison, false)
      | some sv2 =>
          let m2 := m1.setV e.endV { ev with pos := Vec3.scale (1/2) (sv2.pos.add ev.pos) }
          match flickerScan flick m2 p.face ev.outE with
          | none => (m2.poison, false)
          | some true => (m2.setV e.endV ev, false)
          | some false => (collapseEdge m2 eh, true)

/-- C++ `HalfEdgeMesh::safeCollapseEdge(edge)`: the guard chain (cap/bowtie
pattern, duplicate edge between the endpoints, faceless-triangle creation,
one-triangle-hole bridge, flicker after tentative moves), each rejection
returning `false`; only when every guard passes is `collapseEdge` called
and `true` returned. -/
def safeCollapseEdge (flick : Mesh → Nat → Nat → Bool) (m : Mesh)
    (eh : Nat) : Mesh × Bool :=
  match m.getE eh with
  | none => (m.poison, false)
  | some e =>
      match huetchenSide m e with
      | none => (m.poison, false)
      | some true => (m, false)
      | some false =>
          match m.getE e.pair with
          | none => (m.poison, false)
          | some p =>
              match huetchenSide m p with
              | none => (m.poison, false)
              | some true => (m, false)
              | some false =>
                  match m.getV e.start with
                  | none => (m.poison, false)
                  | some sv =>
                      match countOutTo m sv.outE e.endV with
                      | none => (m.poison, false)
                      | some cnt =>
                          if cnt ≠ 1 then (m, false)
                          else
                            match facelessSide m e with
                            | none => (m.poison, false)
                            | some true => (m, false)
                            | some false =>
                                match facelessSide m p with
                                | none => (m.poison, false)
                                | some true => (m, false)
                                | some false =>
                                    match m.getV e.endV with
                                    | none => (m.poison, false)
                                    | some ev =>
                                        match triHoleScan m e.start ev.outE with
                                        | none => (m.poison, false)
                                        | some true => (m, false)
                                        | some false =>
                                            safeCollapsePhase2 flick m eh e p sv ev

/-! ## Region growing -/

/-- Update a face record in place; dereferencing a dead handle poisons. -/
def Mesh.updF (m : Mesh) (h : Nat) (f : HFace → HFace) : Mesh :=
  match m.getF h with
  | some fc => m.setF h (f fc)
  | none => m.poison

/-- Modelled from the spec: `Region::addFace` (not under `src/`) appends
the face to the region's borrowed face list and sets the face's `m_region`
back-pointer (the callers in `optimizePlanes` and `fillHoles` read
`face->m_region` right after, so `addFace` must set it). -/
def addFaceToRegion (m : Mesh) (rid fh : Nat) : Mesh :=
  m.withOpt (m.getR rid) fun r =>
  let m := m.setR rid ⟨r.rfaces ++ [fh]⟩
  m.updF fh (fun f => { f with region := some rid })

/-- Entry of `regionGrowing` (lines 556–559): mark the face used, then add
it to the region. -/
def rgEnter (m : Mesh) (rid fh : Nat) : Mesh :=
  let m := m.updF fh (fun f => { f with usedF := true })
  addFaceToRegion m rid fh

/-- One neighbour step of the `k` loop of `regionGrowing` (lines 564–569):
read `(*start_face)[k]`, and when its pair carries an unvisited face whose
normal's cosine similarity to the reference normal exceeds the threshold
(`fabs(getFaceNormal() * normal) > angle`), recurse through `rg` and
accumulate `++neighbor_cnt += recursion` (that is, `cnt + 1 + sub`). -/
def rgNeighbor (rg : Mesh → Nat → Mesh × Nat) (nrm : Vec3) (angle : ℚ)
    (fh k : Nat) (acc : Mesh × Nat) : Mesh × Nat :=
  let m := acc.1
  let cnt := acc.2
  match faceEdge m fh k with
  | none => (m.poison, cnt)
  | some eh =>
      match m.getE eh with
      | none => (m.poison, cnt)
      | some e =>
          match m.getE e.pair with
          | none => (m.poison, cnt)
          | some p =>
              match p.face with
              | none => (m, cnt)
              | some g =>
                  match m.getF g with
                  | none => (m.poison, cnt)
                  | some gf =>
                      if gf.usedF = false ∧ |Vec3.dot gf.nrm nrm| > angle then
                        let r := rg m g
                        (r.1, cnt + 1 + r.2)
                      else (m, cnt)

/-- C++ `HalfEdgeMesh::regionGrowing(start_face, normal, angle, region)`
(lines 552–572), with explicit fuel standing for the C++ recursion depth:
mark the seed used, add it to the region, then visit the three neighbours
in order, recursing into each unvisited neighbour whose normal passes the
threshold; returns the final state and the count of faces added beyond the
seed.  At fuel 0 the seed is still marked and added but no neighbour is
visited (never reached from a start fuel above the number of unvisited
faces). -/
def regionGrowing (fuel : Nat) (m : Mesh) (fh : Nat) (nrm : Vec3)
    (angle : ℚ) (rid : Nat) : Mesh × Nat :=
  match fuel with
  | 0 => (rgEnter m rid fh, 0)
  | fuel + 1 =>
      let m := rgEnter m rid fh
      let acc := rgNeighbor (fun m g => regionGrowing fuel m g nrm angle rid)
        nrm angle fh 0 (m, 0)
      let acc := rgNeighbor (fun m g => regionGrowing fuel m g nrm angle rid)
        nrm angle fh 1 acc
      rgNeighbor (fun m g => regionGrowing fuel m g nrm angle rid)
        nrm angle fh 2 acc

/-- Frame-and-monotonicity pair between two states: face normals and
liveness agree, and visited marks only go from unset to set. -/
def FrMono (mA mB : Mesh) : Prop :=
  (∀ g, (mB.getF g).map (fun f => f.nrm) = (mA.getF g).map (fun f => f.nrm)) ∧
  (∀ g gf gf', mA.getF g = some gf → mB.getF g = some gf' →
    gf.usedF = true → gf'.usedF = true)

/-- Postcondition of a `regionGrowing` call from state `m` on seed `fh`
into a region whose record was `r`: some list `app` of faces was appended
to the region; its length is the returned count plus one (the seed);
every appended face was live and unvisited in `m`; every appended face
other than the seed passed the cosine-similarity threshold against the
reference normal (its stored normal `gf.nrm` satisfying
`|gf.nrm ⬝ nrm| > angle`); every appended face is marked visited
afterwards; the appended faces are pairwise distinct; face normals and
liveness are untouched, and visited marks only ever go from unset to
set. -/
def rgPost (m : Mesh) (fh : Nat) (nrm : Vec3) (angle : ℚ) (rid : Nat)
    (res : Mesh × Nat) (r : RegionRec) : Prop :=
  ∃ app : List Nat,
    res.1.getR rid = some ⟨r.rfaces ++ app⟩ ∧
    app.length = res.2 + 1 ∧
    (∀ g ∈ app, ∃ gf, m.getF g = some gf ∧ gf.usedF = false) ∧
    (∀ g ∈ app, g = fh ∨ ∃ gf, m.getF g = some gf ∧ |Vec3.dot gf.nrm nrm| > angle) ∧
    (∀ g ∈ app, ∃ gf, res.1.getF g = some gf ∧ gf.usedF = true) ∧
    app.Nodup ∧
    (∀ g, (res.1.getF g).map (fun f => f.nrm) = (m.getF g).map (fun f => f.nrm)) ∧
    (∀ g gf gf', m.getF g = some gf → res.1.getF g = some gf' →
      gf.usedF = true → gf'.usedF = true)

/-- Postcondition of one neighbour step of `regionGrowing` from
accumulator state `mAcc` with running count `cnt`, the region holding
`base`: like `rgPost`, but every appended face (the admitted neighbour
included) was unvisited and passed the threshold in `mAcc`. -/
def rgNbPost (mAcc : Mesh) (cnt : Nat) (nrm : Vec3) (angle : ℚ) (rid : Nat)
    (base : List Nat) (res : Mesh × Nat) : Prop :=
  ∃ app : List Nat,
    res.1.getR rid = some ⟨base ++ app⟩ ∧
    res.2 = cnt + app.length ∧
    (∀ g ∈ app, ∃ gf, mAcc.getF g = some gf ∧ gf.usedF = false ∧
      |Vec3.dot gf.nrm nrm| > angle) ∧
    (∀ g ∈ app, ∃ gf, res.1.getF g = some gf ∧ gf.usedF = true) ∧
    app.Nodup ∧
    (∀ g, (res.1.getF g).map (fun f => f.nrm) = (mAcc.getF g).map (fun f => f.nrm)) ∧
    (∀ g gf gf', mAcc.getF g = some gf → res.1.getF g = some gf' →
      gf.usedF = true → gf'.usedF = true)

/-! ## Hole retriangulation (`fillHoles`, lines 845–870) -/

/-- Inner `j` scan of the retriangulation pass: find the first edge `jh`
with `hole[i].end == hole[j].start` and `hole[j].end == back.start`;
`none` is UB (a stale handle was dereferenced). -/
def scanJ (m : Mesh) (back ei : HEdge) : List Nat → Option (Option Nat)
  | [] => some none
  | jh :: rest =>
      match m.getE jh with
      | none => none
      | some ej =>
          if ei.endV = ej.start ∧ ej.endV = back.start then some (some jh)
          else scanJ m back ei rest

/-- Outer `i` scan of the retriangulation pass: find the first pair
`(ih, jh)` closing a 3-cycle with the trailing edge (`back.end ==
hole[i].start`, `hole[i].end == hole[j].start`, `hole[j].end ==
back.start`).  The inner edges are only dereferenced when the outer
condition holds, as in the C++ nesting. -/
def scanI (m : Mesh) (back : HEdge) (whole : List Nat) :
    List Nat → Option (Option (Nat × Nat))
  | [] => some none
  | ih :: rest =>
      match m.getE ih with
      | none => none
      | some ei =>
          if back.endV = ei.start then
            match scanJ m back ei whole with
            | none => none
            | some (some jh) => some (some (ih, jh))
            | some none => scanI m back whole rest
          else scanI m back whole rest

/-- One iteration of the face-pointer/erase loop inside the synthesis
branch: `(*f)[e]->face = f` and `current_hole.erase(find(..., (*f)[e]))`,
where `(*f)[e]` walks `next` from the face's edge in the current state. -/
def synthStep (fh backH e : Nat) (acc : Mesh × List Nat) : Mesh × List Nat :=
  let m := acc.1
  match nextPow m backH e with
  | none => (m.poison, [])
  | some h =>
      let m := m.updE h (fun x => { x with face := some fh })
      match eraseFind acc.2 h with
      | none => (m.poison, [])
      | some l => (m, l)

/-- The region-inherit and face-registration tail of the synthesis branch:
`(*f)[0]->pair->face->m_region->addFace(f); m_faces.push_back(f)` — UB when
the pair has no face or the face no region. -/
def inheritRegion (m : Mesh) (backH fh : Nat) : Mesh :=
  m.withOpt (m.getE backH) fun e0 =>
  m.withOpt (m.getE e0.pair) fun p =>
  m.withOpt p.face fun g =>
  m.withOpt (m.getF g) fun gf =>
  m.withOpt gf.region fun rid =>
  let m := addFaceToRegion m rid fh
  { m with faces := m.faces ++ [fh] }

/-- The synthesis branch of the retriangulation pass (lines 854–866):
allocate a face whose edge is the trailing hole edge, link the three edges
into a `next` 3-cycle, point them at the face and erase them from the
candidate list, inherit the region through `(*f)[0]->pair->face->m_region`
(UB when that chain hits null), and push the face onto `m_faces`. -/
def synthFace (m : Mesh) (hole : List Nat) (backH ih jh : Nat) : Mesh × List Nat :=
  let fh := m.nextId
  let m := { m with nextId := m.nextId + 1 }
  let m := m.setF fh ⟨backH, ⟨0, 0, 0⟩, none, false⟩
  let m := m.updE backH (fun x => { x with next := some ih })
  let m := m.updE ih (fun x => { x with next := some jh })
  let m := m.updE jh (fun x => { x with next := some backH })
  let acc := synthStep fh backH 2 (synthStep fh backH 1 (synthStep fh backH 0 (m, hole)))
  (inheritRegion acc.1 backH fh, acc.2)

/-- One pass of the `while(current_hole.size()>0)` retriangulation loop:
scan for a 3-cycle; if found, synthesize the face (consuming its three
edges), else drop the trailing edge (`pop_back`).  A poisoned first
component marks C++ UB; its candidate list is `[]`. -/
def fillHolePass (m : Mesh) (hole : List Nat) : Mesh × List Nat :=
  match hole.getLast? with
  | none => (m, [])
  | some backH =>
      match m.getE backH with
      | none => (m.poison, [])
      | some back =>
          match scanI m back hole hole with
          | none => (m.poison, [])
          | some none => (m, hole.dropLast)
          | some (some (ih, jh)) => synthFace m hole backH ih jh

/-- The full retriangulation loop over one hole candidate, with fuel (the
C++ `while` is bounded because each pass strictly shrinks the list; fuel
above the list length is never exhausted). -/
def fillHoleLoop (fuel : Nat) (m : Mesh) (hole : List Nat) : Mesh :=
  match fuel with
  | 0 => m
  | fuel + 1 =>
      if hole = [] then m
      else
        let r := fillHolePass m hole
        fillHoleLoop fuel r.1 r.2

/-! ## Finalize -/

/-- The vertex loop of `HalfEdgeMesh::finalize` (lines 1024–1040): for each
vertex of `m_vertices`, in order, emit the stored position into the vertex
buffer and the componentwise NEGATION of the stored normal into the normal
buffer.  A buffer is modelled as a list of per-vertex `Vec3` entries (the
C++ flat `float` array groups exactly 3 floats per vertex); `none` models
reading a freed vertex.  The constant colour tint (`0.8,0.8,0.8`) and its
per-face overwrite (`m_colorRegions` is false throughout the visible code;
the region branch uses float trigonometry) carry no claim and are not
modelled. -/
def finalizeVerts (m : Mesh) : List Nat → Option (List (Vec3 × Vec3))
  | [] => some []
  | h :: t =>
      match m.getV h, finalizeVerts m t with
      | some v, some rest => some ((v.pos, v.nrm.neg) :: rest)
      | _, _ => none

/-- The dense output index assigned to a vertex handle: its position in
`m_vertices`, as built by the `index_map` of `finalize`; a handle missing
from the map defaults to `0` (C++ `unordered_map::operator[]`
value-initializes). -/
def denseIndex (m : Mesh) (h : Nat) : Nat :=
  (m.verts.indexOf h)

/-- The face loop of `finalize`: one index-buffer triple per face, the
dense indices of the face's three vertices `(*f)(0..2)`. -/
def finalizeIndices (m : Mesh) : List Nat → Option (List (Nat × Nat × Nat))
  | [] => some []
  | fh :: t =>
      match faceVertex m fh 0, faceVertex m fh 1, faceVertex m fh 2,
            finalizeIndices m t with
      | some a, some b, some c, some rest =>
          some ((denseIndex m a, denseIndex m b, denseIndex m c) :: rest)
      | _, _, _, _ => none

/-- C++ `HalfEdgeMesh::finalize`: the vertex buffers (position and
sign-flipped normal per vertex of `m_vertices`) and the triangle index
buffer (one triple per face of `m_faces`). -/
def finalizeRun (m : Mesh) : Option (List (Vec3 × Vec3) × List (Nat × Nat × Nat)) :=
  match finalizeVerts m m.verts, finalizeIndices m m.faces with
  | some vb, some ib => some (vb, ib)
  | _, _ => none

/-! ## Graph invariants -/

/-- Pairing invariant for one half-edge record (§8 of the spec): its pair is
live and satisfies `pair.pair == e`, `pair.start == e.end`,
`pair.end == e.start`. -/
def pairedAt (m : Mesh) (h : Nat) (e : HEdge) : Prop :=
  ∃ p, m.getE e.pair = some p ∧ p.pair = h ∧ p.start = e.endV ∧ p.endV = e.start

instance (m : Mesh) (h : Nat) (e : HEdge) : Decidable (pairedAt m h e) := by
  unfold pairedAt
  cases m.getE e.pair with
  | none => exact .isFalse (by simp)
  | some p => exact decidable_of_iff (p.pair = h ∧ p.start = e.endV ∧ p.endV = e.start) (by simp)

/-- The pairing invariant: every live half-edge is properly paired. -/
def PairInv (m : Mesh) : Prop :=
  ∀ h e, m.getE h = some e → pairedAt m h e

/-- Face-cycle invariant for one face (§8 of the spec): three applications
of `next` from `f.edge` return to `f.edge`, and all three edges on the
cycle reference this face. -/
def faceCycleOK (m : Mesh) (fh : Nat) (f : HFace) : Prop :=
  ∃ h1 h2 e0 e1 e2,
    m.getE f.edge = some e0 ∧ e0.next = some h1 ∧
    m.getE h1 = some e1 ∧ e1.next = some h2 ∧
    m.getE h2 = some e2 ∧ e2.next = some f.edge ∧
    e0.face = some fh ∧ e1.face = some fh ∧ e2.face = some fh

/-- The face-cycle invariant: every live face has a proper 3-cycle of
`next` references all carrying the face. -/
def FaceInv (m : Mesh) : Prop :=
  ∀ fh f, m.getF fh = some f → faceCycleOK m fh f

/-- Executable check of `pairedAt` over the edge-store keys. -/
def pairCheckE (m : Mesh) (h : Nat) : Bool :=
  match m.getE h with
  | none => true
  | some e =>
      match m.getE e.pair with
      | none => false
      | some p => decide (p.pair = h ∧ p.start = e.endV ∧ p.endV = e.start)

/-- Executable check of the pairing invariant (scans the store's keys). -/
def pairInvCheck (m : Mesh) : Bool :=
  m.estore.all fun kv => pairCheckE m kv.1

/-- Executable check of `faceCycleOK` for one face handle. -/
def faceCheckF (m : Mesh) (fh : Nat) : Bool :=
  match m.getF fh with
  | none => true
  | some f =>
      match m.getE f.edge with
      | none => false
      | some e0 =>
          match e0.next with
          | none => false
          | some h1 =>
              match m.getE h1 with
              | none => false
              | some e1 =>
                  match e1.next with
                  | none => false
                  | some h2 =>
                      match m.getE h2 with
                      | none => false
                      | some e2 =>
                          decide (e2.next = some f.edge ∧ e0.face = some fh ∧
                                  e1.face = some fh ∧ e2.face = some fh)

/-- Executable check of the face-cycle invariant (scans the store's keys). -/
def faceInvCheck (m : Mesh) : Bool :=
  m.fstore.all fun kv => faceCheckF m kv.1

/-- Handle-boundedness: every live edge's key and pair target lie below the
allocation counter.  Every mesh reachable by the public operations
satisfies it; fresh allocation relies on it never to overwrite a live
record or to be the target of an existing pair pointer. -/
def EdgesBounded (m : Mesh) : Prop :=
  ∀ h e, m.getE h = some e → h < m.nextId ∧ e.pair < m.nextId

/-- Executable check of `EdgesBounded` over the edge store's entries. -/
def edgesBoundedCheck (m : Mesh) : Bool :=
  m.estore.all fun kv =>
    match kv.2 with
    | none => true
    | some e => decide (kv.1 < m.nextId ∧ e.pair < m.nextId)

/-! ## Concrete scenario meshes

The canonical scenario of §8 of the spec: a unit square split by
`addTriangle(0,1,2)` then `addTriangle(0,2,3)`.  Handles produced by the
run:  vertices `0..3`; first face `4` with edges `5 (0→1)`, `7 (1→2)`,
`9 (2→0)` and boundary pairs `6, 8, 10`; edge `10 (0→2)` is reused as the
diagonal of the second face `11`, whose other edges are `12 (2→3)`,
`14 (3→0)` with boundary pairs `13, 15`. -/

/-- Four corner vertices of the unit square. -/
def sq4 : Mesh :=
  addVertex (addVertex (addVertex (addVertex Mesh.empty ⟨0, 0, 0⟩) ⟨1, 0, 0⟩) ⟨1, 1, 0⟩) ⟨0, 1, 0⟩

/-- The mesh after `addTriangle(0,1,2)`. -/
def tri1 : Mesh := addTriangle sq4 0 1 2

/-- The canonical quad: `addTriangle(0,1,2); addTriangle(0,2,3)`. -/
def quadC : Mesh := addTriangle tri1 0 2 3

/-- The canonical quad after flipping its diagonal (edge `10`) and then
flipping the replacement edge created by that flip (edge `16`). -/
def quadFlip2 : Mesh := flipEdge (flipEdge quadC 10) 16

/-- The four square corners with vertex normals supplied through
`addNormal` (normal `(0,0,1)` for the first three, `(0,0,2)` for the
last, so the sign flip is visible). -/
def sq4n : Mesh :=
  addNormal (addVertex (addNormal (addVertex (addNormal (addVertex
    (addNormal (addVertex Mesh.empty ⟨0, 0, 0⟩) ⟨0, 0, 1⟩)
    ⟨1, 0, 0⟩) ⟨0, 0, 1⟩) ⟨1, 1, 0⟩) ⟨0, 0, 1⟩) ⟨0, 1, 0⟩) ⟨0, 0, 2⟩

/-- The canonical quad built on the vertices with normals. -/
def quadN : Mesh := addTriangle (addTriangle sq4n 0 1 2) 0 2 3

/-- The canonical quad with one empty region (handle `0`) installed, as
`optimizePlanes` does before seeding `regionGrowing`. -/
def quadR : Mesh := { quadC with rstore := quadC.rstore.set 0 ⟨[]⟩ }

/-- A state-independent flicker heuristic for the demonstration run: only
face `17` (the third triangle) reports instability. -/
def flickEx : Mesh → Nat → Nat → Bool := fun _ _ g => decide (g = 17)

/-- The canonical quad extended by a fifth vertex below the square and a
third triangle `(1,4,2)` (face handle `17`, around vertex `1`; its edge
`2→1` reuses the boundary pair `8`). -/
def penta : Mesh := addTriangle (addVertex quadC ⟨1, -1, 0⟩) 1 4 2

/-- The demonstration mesh for the flicker-restoration defect: the three
faces `4`, `11`, `17` are assigned to regions `0`, `1`, `2`. -/
def meshEx : Mesh :=
  addFaceToRegion (addFaceToRegion (addFaceToRegion
    { penta with rstore := ((penta.rstore.set 0 ⟨[]⟩).set 1 ⟨[]⟩).set 2 ⟨[]⟩ }
    0 4) 1 11) 2 17

/-- Reading after an overwrite: the new record at the written key, the old
content elsewhere. -/
@[simp] theorem Store.find_set {α : Type} (s : Store α) (k : Nat) (v : α) (h : Nat) :
    (s.set k v).find h = if h = k then some v else s.find h := rfl

/-- Reading after a free: dead at the freed key, the old content elsewhere. -/
@[simp] theorem Store.find_del {α : Type} (s : Store α) (k : Nat) (h : Nat) :
    (s.del k).find h = if h = k then none else s.find h := rfl

@[simp] theorem Mesh.poison_getV (m : Mesh) (h : Nat) : m.poison.getV h = m.getV h := rfl
@[simp] theorem Mesh.poison_getE (m : Mesh) (h : Nat) : m.poison.getE h = m.getE h := rfl
@[simp] theorem Mesh.poison_getF (m : Mesh) (h : Nat) : m.poison.getF h = m.getF h := rfl
@[simp] theorem Mesh.poison_getR (m : Mesh) (h : Nat) : m.poison.getR h = m.getR h := rfl
@[simp] theorem Mesh.poison_verts (m : Mesh) : m.poison.verts = m.verts := rfl
@[simp] theorem Mesh.poison_faces (m : Mesh) : m.poison.faces = m.faces := rfl

@[simp] theorem Mesh.setV_getE (m : Mesh) (h : Nat) (v : HVertex) (g : Nat) :
    (m.setV h v).getE g = m.getE g := rfl
@[simp] theorem Mesh.setV_getF (m : Mesh) (h : Nat) (v : HVertex) (g : Nat) :
    (m.setV h v).getF g = m.getF g := rfl
@[simp] theorem Mesh.setV_getR (m : Mesh) (h : Nat) (v : HVertex) (g : Nat) :
    (m.setV h v).getR g = m.getR g := rfl
@[simp] theorem Mesh.setE_getV (m : Mesh) (h : Nat) (e : HEdge) (g : Nat) :
    (m.setE h e).getV g = m.getV g := rfl
@[simp] theorem Mesh.setE_getF (m : Mesh) (h : Nat) (e : HEdge) (g : Nat) :
    (m.setE h e).getF g = m.getF g := rfl
@[simp] theorem Mesh.setE_getR (m : Mesh) (h : Nat) (e : HEdge) (g : Nat) :
    (m.setE h e).getR g = m.getR g := rfl
@[simp] theorem Mesh.setF_getV (m : Mesh) (h : Nat) (f : HFace) (g : Nat) :
    (m.setF h f).getV g = m.getV g := rfl
@[simp] theorem Mesh.setF_getE (m : Mesh) (h : Nat) (f : HFace) (g : Nat) :
    (m.setF h f).getE g = m.getE g := rfl
@[simp] theorem Mesh.setF_getR (m : Mesh) (h : Nat) (f : HFace) (g : Nat) :
    (m.setF h f).getR g = m.getR g := rfl
@[simp] theorem Mesh.setR_getV (m : Mesh) (h : Nat) (r : RegionRec) (g : Nat) :
    (m.setR h r).getV g = m.getV g := rfl
@[simp] theorem Mesh.setR_getE (m : Mesh) (h : Nat) (r : RegionRec) (g : Nat) :
    (m.setR h r).getE g = m.getE g := rfl
@[simp] theorem Mesh.setR_getF (m : Mesh) (h : Nat) (r : RegionRec) (g : Nat) :
    (m.setR h r).getF g = m.getF g := rfl

@[simp] theorem Mesh.setV_getV (m : Mesh) (h : Nat) (v : HVertex) (g : Nat) :
    (m.setV h v).getV g = if g = h then some v else m.getV g := rfl
@[simp] theorem Mesh.setE_getE (m : Mesh) (h : Nat) (e : HEdge) (g : Nat) :
    (m.setE h e).getE g = if g = h then some e else m.getE g := rfl
@[simp] theorem Mesh.setF_getF (m : Mesh) (h : Nat) (f : HFace) (g : Nat) :
    (m.setF h f).getF g = if g = h then some f else m.getF g := rfl
@[simp] theorem Mesh.setR_getR (m : Mesh) (h : Nat) (r : RegionRec) (g : Nat) :
    (m.setR h r).getR g = if g = h then some r else m.getR g := rfl

/-- A successful `Store.find` result is bound at a key present in the
store's association list. -/
theorem find_key_mem {α : Type} (s : Store α) (h : Nat) (a : α)
    (hf : s.find h = some a) : ∃ kv, kv ∈ s ∧ kv.1 = h := by
  induction s with
  | nil => simp [Store.find] at hf
  | cons kv rest ih =>
      by_cases hk : h = kv.1
      · exact ⟨kv, List.mem_cons_self kv rest, hk.symm⟩
      · obtain ⟨kv', hm, he⟩ := ih (by simpa [Store.find, hk] using hf)
        exact ⟨kv', List.mem_cons_of_mem _ hm, he⟩

/-- The executable pairing check implies the pairing invariant. -/
theorem pairInvCheck_sound (m : Mesh) (hc : pairInvCheck m = true) : PairInv m := by
  intro h e hf
  obtain ⟨kv, hm, he⟩ := find_key_mem m.estore h e hf
  have := (List.all_eq_true.mp hc) kv hm
  rw [he] at this
  cases hp : m.getE e.pair with
  | none => simp [pairCheckE, hf, hp] at this
  | some p =>
      simp only [pairCheckE, hf, hp] at this
      exact ⟨p, hp, by simpa using of_decide_eq_true this⟩

/-- The executable face-cycle check implies the face-cycle invariant. -/
theorem faceInvCheck_sound (m : Mesh) (hc : faceInvCheck m = true) : FaceInv m := by
  intro fh f hf
  obtain ⟨kv, hm, he⟩ := find_key_mem m.fstore fh f hf
  have := (List.all_eq_true.mp hc) kv hm
  rw [he] at this
  cases h0 : m.getE f.edge with
  | none => simp [faceCheckF, hf, h0] at this
  | some e0 =>
      cases hn0 : e0.next with
      | none => simp [faceCheckF, hf, h0, hn0] at this
      | some h1 =>
          cases h1e : m.getE h1 with
          | none => simp [faceCheckF, hf, h0, hn0, h1e] at this
          | some e1 =>
              cases hn1 : e1.next with
              | none => simp [faceCheckF, hf, h0, hn0, h1e, hn1] at this
              | some h2 =>
                  cases h2e : m.getE h2 with
                  | none => simp [faceCheckF, hf, h0, hn0, h1e, hn1, h2e] at this
                  | some e2 =>
                      simp only [faceCheckF, hf, h0, hn0, h1e, hn1, h2e] at this
                      obtain ⟨c1, c2, c3, c4⟩ := of_decide_eq_true this
                      exact ⟨h1, h2, e0, e1, e2, h0, hn0, h1e, hn1, h2e, c1, c2, c3, c4⟩

@[simp] theorem Mesh.updE_getV (m : Mesh) (h : Nat) (fn : HEdge → HEdge) (g : Nat) :
    (m.updE h fn).getV g = m.getV g := by
  unfold Mesh.updE; cases m.getE h <;> simp

@[simp] theorem Mesh.updE_getF (m : Mesh) (h : Nat) (fn : HEdge → HEdge) (g : Nat) :
    (m.updE h fn).getF g = m.getF g := by
  unfold Mesh.updE; cases m.getE h <;> simp

@[simp] theorem Mesh.updE_getR (m : Mesh) (h : Nat) (fn : HEdge → HEdge) (g : Nat) :
    (m.updE h fn).getR g = m.getR g := by
  unfold Mesh.updE; cases m.getE h <;> simp

@[simp] theorem Mesh.updV_getE (m : Mesh) (h : Nat) (fn : HVertex → HVertex) (g : Nat) :
    (m.updV h fn).getE g = m.getE g := by
  unfold Mesh.updV; cases m.getV h <;> simp

@[simp] theorem Mesh.updV_getF (m : Mesh) (h : Nat) (fn : HVertex → HVertex) (g : Nat) :
    (m.updV h fn).getF g = m.getF g := by
  unfold Mesh.updV; cases m.getV h <;> simp

@[simp] theorem Mesh.updV_getR (m : Mesh) (h : Nat) (fn : HVertex → HVertex) (g : Nat) :
    (m.updV h fn).getR g = m.getR g := by
  unfold Mesh.updV; cases m.getV h <;> simp

@[simp] theorem Mesh.updF_getV (m : Mesh) (h : Nat) (fn : HFace → HFace) (g : Nat) :
    (m.updF h fn).getV g = m.getV g := by
  unfold Mesh.updF; cases m.getF h <;> simp

@[simp] theorem Mesh.updF_getE (m : Mesh) (h : Nat) (fn : HFace → HFace) (g : Nat) :
    (m.updF h fn).getE g = m.getE g := by
  unfold Mesh.updF; cases m.getF h <;> simp

@[simp] theorem Mesh.updF_getR (m : Mesh) (h : Nat) (fn : HFace → HFace) (g : Nat) :
    (m.updF h fn).getR g = m.getR g := by
  unfold Mesh.updF; cases m.getF h <;> simp

/-- Updating a live edge record: the new record at the handle, the old ones
elsewhere. -/
theorem Mesh.updE_getE_of (m : Mesh) (h : Nat) (fn : HEdge → HEdge) (e : HEdge)
    (he : m.getE h = some e) (g : Nat) :
    (m.updE h fn).getE g = if g = h then some (fn e) else m.getE g := by
  unfold Mesh.updE; rw [he]; simp

/-- Updating a live vertex record: the new record at the handle, the old
ones elsewhere. -/
theorem Mesh.updV_getV_of (m : Mesh) (h : Nat) (fn : HVertex → HVertex) (v : HVertex)
    (hv : m.getV h = some v) (g : Nat) :
    (m.updV h fn).getV g = if g = h then some (fn v) else m.getV g := by
  unfold Mesh.updV; rw [hv]; simp

/-- Updating a live face record: the new record at the handle, the old ones
elsewhere. -/
theorem Mesh.updF_getF_of (m : Mesh) (h : Nat) (fn : HFace → HFace) (f : HFace)
    (hf : m.getF h = some f) (g : Nat) :
    (m.updF h fn).getF g = if g = h then some (fn f) else m.getF g := by
  unfold Mesh.updF; rw [hf]; simp

/-- The edge store is untouched by `addFaceToRegion`. -/
@[simp] theorem addFaceToRegion_getE (m : Mesh) (rid fh g : Nat) :
    (addFaceToRegion m rid fh).getE g = m.getE g := by
  unfold addFaceToRegion
  cases m.getR rid <;> simp [Mesh.withOpt]

/-- The vertex store is untouched by `addFaceToRegion`. -/
@[simp] theorem addFaceToRegion_getV (m : Mesh) (rid fh g : Nat) :
    (addFaceToRegion m rid fh).getV g = m.getV g := by
  unfold addFaceToRegion
  cases m.getR rid <;> simp [Mesh.withOpt]

/-- Effect of `rgEnter` on face records: the seed gets `usedF := true` and
`region := rid`; every other face keeps its record. -/
theorem rgEnter_getF (m : Mesh) (rid fh : Nat) (r : RegionRec) (gf0 : HFace)
    (hr : m.getR rid = some r) (hf0 : m.getF fh = some gf0) (g : Nat) :
    (rgEnter m rid fh).getF g =
      if g = fh then some { gf0 with usedF := true, region := some rid }
      else m.getF g := by
  unfold rgEnter addFaceToRegion
  simp only [Mesh.updF, hf0, Mesh.setF_getR, hr, Mesh.withOpt, Mesh.setR_getF,
    Mesh.setF_getF, if_pos rfl]
  by_cases hg : g = fh <;> simp [hg]

/-- Effect of `rgEnter` on the region store: the seed is appended to the
target region's face list. -/
theorem rgEnter_getR (m : Mesh) (rid fh : Nat) (r : RegionRec) (gf0 : HFace)
    (hr : m.getR rid = some r) (hf0 : m.getF fh = some gf0) (q : Nat) :
    (rgEnter m rid fh).getR q =
      if q = rid then some ⟨r.rfaces ++ [fh]⟩ else m.getR q := by
  unfold rgEnter addFaceToRegion
  simp only [Mesh.updF, hf0, Mesh.setF_getR, hr, Mesh.withOpt, Mesh.setR_getF,
    Mesh.setF_getF, if_pos rfl, Mesh.setR_getR]
  by_cases hq : q = rid <;> simp [hq]

/-- The edge store is untouched by `rgEnter`. -/
@[simp] theorem rgEnter_getE (m : Mesh) (rid fh g : Nat) :
    (rgEnter m rid fh).getE g = m.getE g := by
  unfold rgEnter; simp

/-- The vertex store is untouched by `rgEnter`. -/
@[simp] theorem rgEnter_getV (m : Mesh) (rid fh g : Nat) :
    (rgEnter m rid fh).getV g = m.getV g := by
  unfold rgEnter; simp

/-- Backward transport along a frame+monotonicity pair: a face unvisited
in the later state was live and unvisited in the earlier state, with the
same normal. -/
theorem unused_transport (mA mB : Mesh)
    (hfr : ∀ g, (mB.getF g).map (fun f => f.nrm) = (mA.getF g).map (fun f => f.nrm))
    (hmono : ∀ g gf gf', mA.getF g = some gf → mB.getF g = some gf' →
      gf.usedF = true → gf'.usedF = true)
    (g : Nat) (gf : HFace) (hB : mB.getF g = some gf) (hu : gf.usedF = false) :
    ∃ gfA, mA.getF g = some gfA ∧ gfA.usedF = false ∧ gfA.nrm = gf.nrm := by
  have hfrg := hfr g
  rw [hB] at hfrg
  cases hA : mA.getF g with
  | none => rw [hA] at hfrg; simp at hfrg
  | some gfA =>
      rw [hA] at hfrg
      simp at hfrg
      refine ⟨gfA, rfl, ?_, hfrg.symm⟩
      by_contra hne
      have : gfA.usedF = true := by
        cases hx : gfA.usedF
        · exact absurd hx hne
        · rfl
      have := hmono g gfA gf hA hB this
      rw [this] at hu
      cases hu

/-- Forward transport along a frame+monotonicity pair: a face visited in
the earlier state stays live and visited in the later one. -/
theorem used_transport (mA mB : Mesh)
    (hfr : ∀ g, (mB.getF g).map (fun f => f.nrm) = (mA.getF g).map (fun f => f.nrm))
    (hmono : ∀ g gf gf', mA.getF g = some gf → mB.getF g = some gf' →
      gf.usedF = true → gf'.usedF = true)
    (g : Nat) (gf : HFace) (hA : mA.getF g = some gf) (hu : gf.usedF = true) :
    ∃ gfB, mB.getF g = some gfB ∧ gfB.usedF = true := by
  have hfrg := hfr g
  rw [hA] at hfrg
  cases hB : mB.getF g with
  | none => rw [hB] at hfrg; simp at hfrg
  | some gfB => exact ⟨gfB, rfl, hmono g gf gfB hA hB hu⟩

/-- `FrMono` composes. -/
theorem FrMono.trans {mA mB mC : Mesh} (h1 : FrMono mA mB) (h2 : FrMono mB mC) :
    FrMono mA mC := by
  refine ⟨fun g => (h2.1 g).trans (h1.1 g), fun g gf gf' hA hC hu => ?_⟩
  obtain ⟨gfB, hB, huB⟩ := used_transport mA mB h1.1 h1.2 g gf hA hu
  exact h2.2 g gfB gf' hB hC huB

/-- `FrMono` is reflexive. -/
theorem FrMono.refl (m : Mesh) : FrMono m m :=
  ⟨fun _ => rfl, fun g gf gf' h1 h2 hu => by rw [h1] at h2; cases h2; exact hu⟩

/-- A state change that keeps the region record and every face record
satisfies the neighbour-step postcondition with nothing appended. -/
theorem rgNbPost_triv (mAcc : Mesh) (cnt : Nat) (nrm : Vec3) (angle : ℚ)
    (rid : Nat) (base : List Nat) (mm : Mesh)
    (hr : mm.getR rid = some ⟨base⟩) (hfg : ∀ g, mm.getF g = mAcc.getF g) :
    rgNbPost mAcc cnt nrm angle rid base (mm, cnt) := by
  refine ⟨[], by simpa using hr, by simp, by simp, by simp, by simp,
    fun g => by rw [hfg], fun g gf gf' h1 h2 he => ?_⟩
  rw [hfg, h1] at h2
  cases h2
  exact he

/-- One neighbour step of `regionGrowing` satisfies `rgNbPost`, assuming
the recursive call satisfies `rgPost` on unvisited live seeds. -/
theorem rgNeighbor_post (rg : Mesh → Nat → Mesh × Nat) (nrm : Vec3)
    (angle : ℚ) (rid : Nat)
    (hrg : ∀ m2 g r2 gf, m2.getR rid = some r2 → m2.getF g = some gf →
      gf.usedF = false → rgPost m2 g nrm angle rid (rg m2 g) r2)
    (mAcc : Mesh) (cnt : Nat) (fh k : Nat) (base : List Nat)
    (hbase : mAcc.getR rid = some ⟨base⟩) :
    rgNbPost mAcc cnt nrm angle rid base
      (rgNeighbor rg nrm angle fh k (mAcc, cnt)) := by
  unfold rgNeighbor
  cases hfe : faceEdge mAcc fh k with
  | none =>
      simp only [hfe]
      exact rgNbPost_triv _ _ _ _ _ _ _ (by simpa using hbase) (by simp)
  | some eh =>
      simp only [hfe]
      cases hee : mAcc.getE eh with
      | none =>
          simp only [hee]
          exact rgNbPost_triv _ _ _ _ _ _ _ (by simpa using hbase) (by simp)
      | some e =>
          simp only [hee]
          cases hep : mAcc.getE e.pair with
          | none =>
              simp only [hep]
              exact rgNbPost_triv _ _ _ _ _ _ _ (by simpa using hbase) (by simp)
          | some p =>
              simp only [hep]
              cases hpf : p.face with
              | none =>
                  simp only [hpf]
                  exact rgNbPost_triv _ _ _ _ _ _ _ hbase (by simp)
              | some g =>
                  simp only [hpf]
                  cases hgf : mAcc.getF g with
                  | none =>
                      simp only [hgf]
                      exact rgNbPost_triv _ _ _ _ _ _ _ (by simpa using hbase) (by simp)
                  | some gf =>
                      simp only [hgf]
                      by_cases hcond : gf.usedF = false ∧ |Vec3.dot gf.nrm nrm| > angle
                      · rw [if_pos hcond]
                        obtain ⟨app, hreg, hlen, hunused, hadm, hused, hnd, hfr, hmono⟩ :=
                          hrg mAcc g ⟨base⟩ gf hbase hgf hcond.1
                        refine ⟨app, by simpa using hreg, by omega, ?_, hused, hnd, hfr, hmono⟩
                        intro g' hg'
                        obtain ⟨gf1, hgf1, hu1⟩ := hunused g' hg'
                        rcases hadm g' hg' with rfl | ⟨gf2, hgf2, hthr⟩
                        · exact ⟨gf1, hgf1, hu1, by
                            rw [hgf] at hgf1; cases hgf1; exact hcond.2⟩
                        · refine ⟨gf1, hgf1, hu1, ?_⟩
                          rw [hgf2] at hgf1; cases hgf1; exact hthr
                      · rw [if_neg hcond]
                        exact rgNbPost_triv _ _ _ _ _ _ _ hbase (by simp)

/-- `rgEnter` only marks the seed: it is a frame-and-monotonicity step. -/
theorem rgEnter_FrMono (m : Mesh) (rid fh : Nat) (r : RegionRec) (gf0 : HFace)
    (hr : m.getR rid = some r) (hf0 : m.getF fh = some gf0) :
    FrMono m (rgEnter m rid fh) := by
  constructor
  · intro g
    rw [rgEnter_getF m rid fh r gf0 hr hf0]
    by_cases hg : g = fh
    · subst hg; simp [hf0]
    · simp [hg]
  · intro g gf gf' h1 h2 hu
    rw [rgEnter_getF m rid fh r gf0 hr hf0] at h2
    by_cases hg : g = fh
    · rw [if_pos hg] at h2; injection h2 with h2; rw [← h2]
    · rw [if_neg hg] at h2; rw [h1] at h2; injection h2 with h2; rw [← h2]; exact hu

/-- A face left unvisited after `rgEnter` is not the seed and kept its
record from before. -/
theorem rgEnter_unused_back (m : Mesh) (rid fh : Nat) (r : RegionRec) (gf0 : HFace)
    (hr : m.getR rid = some r) (hf0 : m.getF fh = some gf0)
    (g : Nat) (gf : HFace) (hB : (rgEnter m rid fh).getF g = some gf)
    (hu : gf.usedF = false) :
    g ≠ fh ∧ m.getF g = some gf := by
  rw [rgEnter_getF m rid fh r gf0 hr hf0] at hB
  by_cases hg : g = fh
  · rw [if_pos hg] at hB
    injection hB with hB
    rw [← hB] at hu
    simp at hu
  · rw [if_neg hg] at hB
    exact ⟨hg, hB⟩

/-- Master lemma for `regionGrowing`: any call on a live region and a live
unvisited seed satisfies `rgPost`, for every fuel. -/
theorem rg_master (nrm : Vec3) (angle : ℚ) (rid : Nat) :
    ∀ (fuel : Nat) (m : Mesh) (fh : Nat) (r : RegionRec) (gf0 : HFace),
      m.getR rid = some r → m.getF fh = some gf0 → gf0.usedF = false →
      rgPost m fh nrm angle rid (regionGrowing fuel m fh nrm angle rid) r := by
  intro fuel
  induction fuel with
  | zero =>
      intro m fh r gf0 hr hf0 hu0
      have hfm := rgEnter_FrMono m rid fh r gf0 hr hf0
      refine ⟨[fh], ?_, rfl, ?_, ?_, ?_, by simp, hfm.1, hfm.2⟩
      · show (rgEnter m rid fh).getR rid = some ⟨r.rfaces ++ [fh]⟩
        rw [rgEnter_getR m rid fh r gf0 hr hf0]
        simp
      · intro g hg
        rw [List.mem_singleton] at hg
        rw [hg]
        exact ⟨gf0, hf0, hu0⟩
      · intro g hg
        rw [List.mem_singleton] at hg
        exact Or.inl hg
      · intro g hg
        rw [List.mem_singleton] at hg
        rw [hg]
        refine ⟨{ gf0 with usedF := true, region := some rid }, ?_, rfl⟩
        show (rgEnter m rid fh).getF fh = _
        rw [rgEnter_getF m rid fh r gf0 hr hf0, if_pos rfl]
  | succ n ih =>
      intro m fh r gf0 hr hf0 hu0
      have hrg : ∀ m2 g r2 gf, m2.getR rid = some r2 → m2.getF g = some gf →
          gf.usedF = false →
          rgPost m2 g nrm angle rid (regionGrowing n m2 g nrm angle rid) r2 :=
        fun m2 g r2 gf h1 h2 h3 => ih m2 g r2 gf h1 h2 h3
      have hfmE := rgEnter_FrMono m rid fh r gf0 hr hf0
      have hr1 : (rgEnter m rid fh).getR rid = some ⟨r.rfaces ++ [fh]⟩ := by
        rw [rgEnter_getR m rid fh r gf0 hr hf0]; simp
      have hFh1 : (rgEnter m rid fh).getF fh =
          some { gf0 with usedF := true, region := some rid } := by
        rw [rgEnter_getF m rid fh r gf0 hr hf0, if_pos rfl]
      have h0 : rgNbPost (rgEnter m rid fh) 0 nrm angle rid (r.rfaces ++ [fh])
          (rgNeighbor (fun m2 g => regionGrowing n m2 g nrm angle rid)
            nrm angle fh 0 (rgEnter m rid fh, 0)) :=
        rgNeighbor_post _ nrm angle rid hrg (rgEnter m rid fh) 0 fh 0 _ hr1
      have hstep : regionGrowing (n + 1) m fh nrm angle rid =
          rgNeighbor (fun m2 g => regionGrowing n m2 g nrm angle rid) nrm angle fh 2
            (rgNeighbor (fun m2 g => regionGrowing n m2 g nrm angle rid) nrm angle fh 1
              (rgNeighbor (fun m2 g => regionGrowing n m2 g nrm angle rid) nrm angle fh 0
                (rgEnter m rid fh, 0))) := rfl
      rw [hstep]
      generalize hA1 : rgNeighbor (fun m2 g => regionGrowing n m2 g nrm angle rid)
        nrm angle fh 0 (rgEnter m rid fh, 0) = acc1 at h0 ⊢
      obtain ⟨mA, cA⟩ := acc1
      obtain ⟨app0, hreg0, hcnt0, hadm0, hused0, hnd0, hfr0, hmono0⟩ := h0
      have h1 : rgNbPost mA cA nrm angle rid ((r.rfaces ++ [fh]) ++ app0)
          (rgNeighbor (fun m2 g => regionGrowing n m2 g nrm angle rid)
            nrm angle fh 1 (mA, cA)) :=
        rgNeighbor_post _ nrm angle rid hrg mA cA fh 1 _ hreg0
      generalize hA2 : rgNeighbor (fun m2 g => regionGrowing n m2 g nrm angle rid)
        nrm angle fh 1 (mA, cA) = acc2 at h1 ⊢
      obtain ⟨mB, cB⟩ := acc2
      obtain ⟨app1, hreg1, hcnt1, hadm1, hused1, hnd1, hfr1, hmono1⟩ := h1
      have h2 : rgNbPost mB cB nrm angle rid (((r.rfaces ++ [fh]) ++ app0) ++ app1)
          (rgNeighbor (fun m2 g => regionGrowing n m2 g nrm angle rid)
            nrm angle fh 2 (mB, cB)) :=
        rgNeighbor_post _ nrm angle rid hrg mB cB fh 2 _ hreg1
      generalize hA3 : rgNeighbor (fun m2 g => regionGrowing n m2 g nrm angle rid)
        nrm angle fh 2 (mB, cB) = acc3 at h2 ⊢
      obtain ⟨mC, cC⟩ := acc3
      obtain ⟨app2, hreg2, hcnt2, hadm2, hused2, hnd2, hfr2, hmono2⟩ := h2
      have fm0 : FrMono (rgEnter m rid fh) mA := ⟨hfr0, hmono0⟩
      have fm1 : FrMono mA mB := ⟨hfr1, hmono1⟩
      have fm2 : FrMono mB mC := ⟨hfr2, hmono2⟩
      have fm01 : FrMono (rgEnter m rid fh) mB := fm0.trans fm1
      have fmRest : FrMono (rgEnter m rid fh) mC := fm01.trans fm2
      have fmAll : FrMono m mC := hfmE.trans fmRest
      refine ⟨fh :: (app0 ++ (app1 ++ app2)), ?_, ?_, ?_, ?_, ?_, ?_, fmAll.1, fmAll.2⟩
      · show mC.getR rid = _
        rw [hreg2]
        congr 1
        simp
      · show (fh :: (app0 ++ (app1 ++ app2))).length = cC + 1
        simp only [List.length_cons, List.length_append]
        omega
      · intro g hg
        simp only [List.mem_cons, List.mem_append] at hg
        rcases hg with rfl | hg0 | hg1 | hg2
        · exact ⟨gf0, hf0, hu0⟩
        · obtain ⟨gf, hB, huB, _⟩ := hadm0 g hg0
          obtain ⟨_, hMg⟩ := rgEnter_unused_back m rid fh r gf0 hr hf0 g gf hB huB
          exact ⟨gf, hMg, huB⟩
        · obtain ⟨gf, hB, huB, _⟩ := hadm1 g hg1
          obtain ⟨gfE, hE, huE, _⟩ :=
            unused_transport (rgEnter m rid fh) mA fm0.1 fm0.2 g gf hB huB
          obtain ⟨_, hMg⟩ := rgEnter_unused_back m rid fh r gf0 hr hf0 g gfE hE huE
          exact ⟨gfE, hMg, huE⟩
        · obtain ⟨gf, hB, huB, _⟩ := hadm2 g hg2
          obtain ⟨gfE, hE, huE, _⟩ :=
            unused_transport (rgEnter m rid fh) mB fm01.1 fm01.2 g gf hB huB
          obtain ⟨_, hMg⟩ := rgEnter_unused_back m rid fh r gf0 hr hf0 g gfE hE huE
          exact ⟨gfE, hMg, huE⟩
      · intro g hg
        simp only [List.mem_cons, List.mem_append] at hg
        rcases hg with rfl | hg0 | hg1 | hg2
        · exact Or.inl rfl
        · obtain ⟨gf, hB, huB, hthr⟩ := hadm0 g hg0
          obtain ⟨_, hMg⟩ := rgEnter_unused_back m rid fh r gf0 hr hf0 g gf hB huB
          exact Or.inr ⟨gf, hMg, hthr⟩
        · obtain ⟨gf, hB, huB, hthr⟩ := hadm1 g hg1
          obtain ⟨gfE, hE, huE, hnE⟩ :=
            unused_transport (rgEnter m rid fh) mA fm0.1 fm0.2 g gf hB huB
          obtain ⟨_, hMg⟩ := rgEnter_unused_back m rid fh r gf0 hr hf0 g gfE hE huE
          exact Or.inr ⟨gfE, hMg, by rw [hnE]; exact hthr⟩
        · obtain ⟨gf, hB, huB, hthr⟩ := hadm2 g hg2
          obtain ⟨gfE, hE, huE, hnE⟩ :=
            unused_transport (rgEnter m rid fh) mB fm01.1 fm01.2 g gf hB huB
          obtain ⟨_, hMg⟩ := rgEnter_unused_back m rid fh r gf0 hr hf0 g gfE hE huE
          exact Or.inr ⟨gfE, hMg, by rw [hnE]; exact hthr⟩
      · intro g hg
        simp only [List.mem_cons, List.mem_append] at hg
        rcases hg with rfl | hg0 | hg1 | hg2
        · exact used_transport _ _ fmRest.1 fmRest.2 g _ hFh1 rfl
        · obtain ⟨gf, hB, huB⟩ := hused0 g hg0
          exact used_transport _ _ (fm1.trans fm2).1 (fm1.trans fm2).2 g gf hB huB
        · obtain ⟨gf, hB, huB⟩ := hused1 g hg1
          exact used_transport _ _ fm2.1 fm2.2 g gf hB huB
        · exact hused2 g hg2
      · rw [List.nodup_cons]
        constructor
        · intro hmem
          simp only [List.mem_append] at hmem
          rcases hmem with hg0 | hg1 | hg2
          · obtain ⟨gf, hB, huB, _⟩ := hadm0 fh hg0
            rw [hFh1] at hB
            injection hB with hB
            rw [← hB] at huB
            simp at huB
          · obtain ⟨gf, hB, huB, _⟩ := hadm1 fh hg1
            obtain ⟨gfE, hE, huE, _⟩ :=
              unused_transport (rgEnter m rid fh) mA fm0.1 fm0.2 fh gf hB huB
            rw [hFh1] at hE
            injection hE with hE
            rw [← hE] at huE
            simp at huE
          · obtain ⟨gf, hB, huB, _⟩ := hadm2 fh hg2
            obtain ⟨gfE, hE, huE, _⟩ :=
              unused_transport (rgEnter m rid fh) mB fm01.1 fm01.2 fh gf hB huB
            rw [hFh1] at hE
            injection hE with hE
            rw [← hE] at huE
            simp at huE
        · rw [List.nodup_append]
          refine ⟨hnd0, ?_, ?_⟩
          · rw [List.nodup_append]
            refine ⟨hnd1, hnd2, ?_⟩
            intro g hg1 hg2
            obtain ⟨gf, hB, huB⟩ := hused1 g hg1
            obtain ⟨gf', hB', huB', _⟩ := hadm2 g hg2
            rw [hB] at hB'
            injection hB' with hB'
            rw [← hB'] at huB'
            rw [huB] at huB'
            cases huB'
          · intro g hg0 hg12
            simp only [List.mem_append] at hg12
            obtain ⟨gf, hB, huB⟩ := hused0 g hg0
            rcases hg12 with hg1 | hg2
            · obtain ⟨gf', hB', huB', _⟩ := hadm1 g hg1
              rw [hB] at hB'
              injection hB' with hB'
              rw [← hB'] at huB'
              rw [huB] at huB'
              cases huB'
            · obtain ⟨gf', hB', huB', _⟩ := hadm2 g hg2
              obtain ⟨gfE, hE, huE, _⟩ :=
                unused_transport mA mB fm1.1 fm1.2 g gf' hB' huB'
              rw [hB] at hE
              injection hE with hE
              rw [← hE] at huE
              rw [huB] at huE
              cases huE

/-- C7: for every seed face, reference normal and threshold (and every
fuel), `regionGrowing` started on an empty region and an unvisited live
seed admits a face into the region only if it is the seed or its stored
normal's cosine similarity to the reference normal exceeds the threshold
(`|gf.nrm ⬝ nrm| > angle`, the code's `fabs(getFaceNormal() * normal) >
angle`); each admitted face is visited at most once (the region list is
duplicate-free, enforced by the `m_used` marker); and the returned count
is the number of faces added to the region beyond the seed. -/
theorem regionGrowing_spec (fuel : Nat) (m : Mesh) (fh : Nat) (nrm : Vec3)
    (angle : ℚ) (rid : Nat)
    (hr : m.getR rid = some ⟨[]⟩)
    (hf0 : (m.getF fh).map (fun f => f.usedF) = some false) :
    ∃ app : List Nat,
      (regionGrowing fuel m fh nrm angle rid).1.getR rid = some ⟨app⟩ ∧
      (∀ g ∈ app, g = fh ∨ ∃ gf, m.getF g = some gf ∧
        |Vec3.dot gf.nrm nrm| > angle) ∧
      app.Nodup ∧
      app.length = (regionGrowing fuel m fh nrm angle rid).2 + 1 := by
  cases hg : m.getF fh with
  | none => rw [hg] at hf0; simp at hf0
  | some gf0 =>
      rw [hg] at hf0
      simp at hf0
      obtain ⟨app, h1, h2, _, h4, _, h6, _, _⟩ :=
        rg_master nrm angle rid fuel m fh ⟨[]⟩ gf0 hr hg hf0
      exact ⟨app, by simpa using h1, h4, h6, h2⟩

/-- Witness for C7: growing region `0` from seed face `4` of the canonical
quad with reference normal `(0,0,1)` and threshold `1/2`. -/
theorem regionGrowing_spec_witness :
    ∃ app : List Nat,
      (regionGrowing 10 quadR 4 ⟨0, 0, 1⟩ (1/2) 0).1.getR 0 = some ⟨app⟩ ∧
      (∀ g ∈ app, g = 4 ∨ ∃ gf, quadR.getF g = some gf ∧
        |Vec3.dot gf.nrm ⟨0, 0, 1⟩| > (1/2 : ℚ)) ∧
      app.Nodup ∧
      app.length = (regionGrowing 10 quadR 4 ⟨0, 0, 1⟩ (1/2) 0).2 + 1 :=
  regionGrowing_spec 10 quadR 4 ⟨0, 0, 1⟩ (1/2) 0 (by decide) (by decide)

@[simp] theorem Mesh.poison_ok (m : Mesh) : m.poison.ok = false := rfl
@[simp] theorem Mesh.setV_faces (m : Mesh) (h : Nat) (v : HVertex) : (m.setV h v).faces = m.faces := rfl
@[simp] theorem Mesh.setE_faces (m : Mesh) (h : Nat) (e : HEdge) : (m.setE h e).faces = m.faces := rfl
@[simp] theorem Mesh.setF_faces (m : Mesh) (h : Nat) (f : HFace) : (m.setF h f).faces = m.faces := rfl
@[simp] theorem Mesh.setR_faces (m : Mesh) (h : Nat) (r : RegionRec) : (m.setR h r).faces = m.faces := rfl
@[simp] theorem Mesh.setV_verts (m : Mesh) (h : Nat) (v : HVertex) : (m.setV h v).verts = m.verts := rfl
@[simp] theorem Mesh.setE_verts (m : Mesh) (h : Nat) (e : HEdge) : (m.setE h e).verts = m.verts := rfl
@[simp] theorem Mesh.setF_verts (m : Mesh) (h : Nat) (f : HFace) : (m.setF h f).verts = m.verts := rfl
@[simp] theorem Mesh.setR_verts (m : Mesh) (h : Nat) (r : RegionRec) : (m.setR h r).verts = m.verts := rfl
@[simp] theorem Mesh.setV_ok (m : Mesh) (h : Nat) (v : HVertex) : (m.setV h v).ok = m.ok := rfl
@[simp] theorem Mesh.setE_ok (m : Mesh) (h : Nat) (e : HEdge) : (m.setE h e).ok = m.ok := rfl
@[simp] theorem Mesh.setF_ok (m : Mesh) (h : Nat) (f : HFace) : (m.setF h f).ok = m.ok := rfl
@[simp] theorem Mesh.setR_ok (m : Mesh) (h : Nat) (r : RegionRec) : (m.setR h r).ok = m.ok := rfl

/-- Once cleared, the `ok` flag survives `updE`. -/
theorem Mesh.updE_ok_false (m : Mesh) (h : Nat) (f : HEdge → HEdge)
    (hm : m.ok = false) : (m.updE h f).ok = false := by
  unfold Mesh.updE; cases m.getE h <;> simp [hm]

/-- Once cleared, the `ok` flag survives `updF`. -/
theorem Mesh.updF_ok_false (m : Mesh) (h : Nat) (f : HFace → HFace)
    (hm : m.ok = false) : (m.updF h f).ok = false := by
  unfold Mesh.updF; cases m.getF h <;> simp [hm]

/-- Once cleared, the `ok` flag survives `addFaceToRegion`. -/
theorem addFaceToRegion_ok_false (m : Mesh) (rid fh : Nat)
    (hm : m.ok = false) : (addFaceToRegion m rid fh).ok = false := by
  unfold addFaceToRegion
  cases m.getR rid with
  | none => simp [Mesh.withOpt, hm]
  | some r => simp [Mesh.withOpt]; exact Mesh.updF_ok_false _ _ _ (by simp [hm])

/-- `m_faces` is untouched by `updE`. -/
@[simp] theorem Mesh.updE_faces (m : Mesh) (h : Nat) (f : HEdge → HEdge) :
    (m.updE h f).faces = m.faces := by
  unfold Mesh.updE; cases m.getE h <;> rfl

/-- `m_faces` is untouched by `updF`. -/
@[simp] theorem Mesh.updF_faces (m : Mesh) (h : Nat) (f : HFace → HFace) :
    (m.updF h f).faces = m.faces := by
  unfold Mesh.updF; cases m.getF h <;> rfl

/-- `m_faces` is untouched by `addFaceToRegion`. -/
@[simp] theorem addFaceToRegion_faces (m : Mesh) (rid fh : Nat) :
    (addFaceToRegion m rid fh).faces = m.faces := by
  unfold addFaceToRegion
  cases m.getR rid <;> simp [Mesh.withOpt]

/-- `nextId` is untouched by `updE`. -/
@[simp] theorem Mesh.updE_nextId (m : Mesh) (h : Nat) (f : HEdge → HEdge) :
    (m.updE h f).nextId = m.nextId := by
  unfold Mesh.updE; cases m.getE h <;> rfl

/-- Once cleared, the `ok` flag survives `synthStep`, and a cleared state
keeps an empty candidate list through `synthStep`. -/
theorem synthStep_ok_false (fh backH e : Nat) (acc : Mesh × List Nat)
    (hm : acc.1.ok = false) : (synthStep fh backH e acc).1.ok = false := by
  unfold synthStep
  cases hn : nextPow acc.1 backH e with
  | none => simp [hn]
  | some h =>
      simp only [hn]
      cases he : eraseFind acc.2 h with
      | none => simp [he, Mesh.updE_ok_false _ _ _ hm]
      | some l => simp only [he]; exact Mesh.updE_ok_false _ _ _ hm

/-- Each `synthStep` either strictly shrinks the candidate list or crashes
to the empty list. -/
theorem synthStep_shrink (fh backH e : Nat) (acc : Mesh × List Nat) :
    (synthStep fh backH e acc).2.length < acc.2.length ∨
    (synthStep fh backH e acc).2.length = 0 := by
  unfold synthStep
  cases hn : nextPow acc.1 backH e with
  | none => simp [hn]
  | some h =>
      simp only [hn]
      cases he : eraseFind acc.2 h with
      | none => simp [he]
      | some l =>
          simp only [he]
          left
          unfold eraseFind at he
          by_cases hmem : h ∈ acc.2



          · rw [if_pos hmem] at he
            injection he with he
            subst he
            rw [List.length_erase_of_mem hmem]
            have : 0 < acc.2.length := List.length_pos.mpr (List.ne_nil_of_mem hmem)
            omega
          · rw [if_neg hmem] at he; cases he

/-- A successful `updE` presupposes a sound state. -/
theorem Mesh.updE_ok_inv (m : Mesh) (h : Nat) (f : HEdge → HEdge)
    (hok : (m.updE h f).ok = true) : m.ok = true := by
  unfold Mesh.updE at hok
  cases hg : m.getE h with
  | none => rw [hg] at hok; simp at hok
  | some e => rw [hg] at hok; simpa using hok

/-- A successful `updF` presupposes a sound state. -/
theorem Mesh.updF_ok_inv (m : Mesh) (h : Nat) (f : HFace → HFace)
    (hok : (m.updF h f).ok = true) : m.ok = true := by
  unfold Mesh.updF at hok
  cases hg : m.getF h with
  | none => rw [hg] at hok; simp at hok
  | some e => rw [hg] at hok; simpa using hok

/-- A successful `addFaceToRegion` presupposes a sound state. -/
theorem addFaceToRegion_ok_inv (m : Mesh) (rid fh : Nat)
    (hok : (addFaceToRegion m rid fh).ok = true) : m.ok = true := by
  unfold addFaceToRegion at hok
  cases hg : m.getR rid with
  | none => rw [hg] at hok; simp [Mesh.withOpt] at hok
  | some r =>
      rw [hg] at hok
      simp only [Mesh.withOpt] at hok
      have := Mesh.updF_ok_inv _ _ _ hok
      simpa using this

/-- Anatomy of a sound `inheritRegion` run: the state was sound and the
new face was pushed onto `m_faces`. -/
theorem inheritRegion_ok (m : Mesh) (backH fh : Nat)
    (hok : (inheritRegion m backH fh).ok = true) :
    m.ok = true ∧ (inheritRegion m backH fh).faces = m.faces ++ [fh] := by
  unfold inheritRegion at hok ⊢
  cases h1 : m.getE backH with
  | none => simp [h1, Mesh.withOpt] at hok
  | some e0 =>
      simp only [h1, Mesh.withOpt] at hok ⊢
      cases h2 : m.getE e0.pair with
      | none => simp [h2, Mesh.withOpt] at hok
      | some p =>
          simp only [h2, Mesh.withOpt] at hok ⊢
          cases h3 : p.face with
          | none => simp [h3, Mesh.withOpt] at hok
          | some g =>
              simp only [h3, Mesh.withOpt] at hok ⊢
              cases h4 : m.getF g with
              | none => simp [h4, Mesh.withOpt] at hok
              | some gf =>
                  simp only [h4, Mesh.withOpt] at hok ⊢
                  cases h5 : gf.region with
                  | none => simp [h5, Mesh.withOpt] at hok
                  | some rid =>
                      simp only [h5, Mesh.withOpt] at hok ⊢
                      exact ⟨addFaceToRegion_ok_inv _ _ _ (by simpa using hok), by simp⟩

/-- Anatomy of a sound `synthStep`: the incoming state was sound, exactly
one candidate was erased, and `m_faces`/`nextId` are untouched. -/
theorem synthStep_ok_anatomy (fh backH e : Nat) (acc : Mesh × List Nat)
    (hok : (synthStep fh backH e acc).1.ok = true) :
    acc.1.ok = true ∧ (synthStep fh backH e acc).2.length + 1 = acc.2.length ∧
    (synthStep fh backH e acc).1.faces = acc.1.faces ∧
    (synthStep fh backH e acc).1.nextId = acc.1.nextId := by
  unfold synthStep at hok ⊢
  cases hn : nextPow acc.1 backH e with
  | none => simp only [hn] at hok; simp at hok
  | some h =>
      simp only [hn] at hok ⊢
      cases he : eraseFind acc.2 h with
      | none => simp only [he] at hok; simp at hok
      | some l =>
          simp only [he] at hok ⊢
          have hacc := Mesh.updE_ok_inv _ _ _ hok
          unfold eraseFind at he
          by_cases hmem : h ∈ acc.2
          · rw [if_pos hmem] at he
            injection he with he
            subst he
            refine ⟨hacc, ?_, ?_, ?_⟩
            · show (acc.2.erase h).length + 1 = acc.2.length
              rw [List.length_erase_of_mem hmem]
              have : 0 < acc.2.length := List.length_pos.mpr (List.ne_nil_of_mem hmem)
              omega
            · show (acc.1.updE h _).faces = acc.1.faces
              simp
            · show (acc.1.updE h _).nextId = acc.1.nextId
              simp
          · rw [if_neg hmem] at he; cases he

/-- The chain of three `synthStep`s strictly shrinks a non-empty candidate
list. -/
theorem synthSteps3_shrink (fh backH : Nat) (m : Mesh) (hole : List Nat)
    (hlen : 0 < hole.length) :
    (synthStep fh backH 2 (synthStep fh backH 1
      (synthStep fh backH 0 (m, hole)))).2.length < hole.length := by
  have h0 := synthStep_shrink fh backH 0 (m, hole)
  have h1 := synthStep_shrink fh backH 1 (synthStep fh backH 0 (m, hole))
  have h2 := synthStep_shrink fh backH 2
    (synthStep fh backH 1 (synthStep fh backH 0 (m, hole)))
  rw [show ((m, hole) : Mesh × List Nat).2 = hole from rfl] at h0
  omega

/-- C6 shrink half: every pass of the retriangulation loop on a non-empty
candidate list strictly shrinks it. -/
theorem fillHolePass_shrinks (m : Mesh) (hole : List Nat) (hne : hole ≠ []) :
    (fillHolePass m hole).2.length < hole.length := by
  have hlen : 0 < hole.length := List.length_pos.mpr hne
  unfold fillHolePass
  cases hl : hole.getLast? with
  | none =>
      have : hole.getLast?.isSome := List.getLast?_isSome.mpr hne
      rw [hl] at this
      simp at this
  | some backH =>
      simp only
      cases hge : m.getE backH with
      | none => simpa using hlen
      | some back =>
          simp only
          cases hsc : scanI m back hole hole with
          | none => simpa using hlen
          | some r =>
              cases r with
              | none =>
                  simp only
                  rw [List.length_dropLast]
                  omega
              | some pr =>
                  obtain ⟨ih, jh⟩ := pr
                  show (synthFace m hole backH ih jh).2.length < hole.length
                  unfold synthFace
                  simp only
                  exact synthSteps3_shrink _ _ _ _ hlen

/-- C6 mode half: a pass that hits no UB either leaves the mesh unchanged
and pops the trailing edge, or synthesizes one face consuming exactly
three candidate edges. -/
theorem fillHolePass_modes (m : Mesh) (hole : List Nat) (hne : hole ≠ [])
    (hok : (fillHolePass m hole).1.ok = true) :
    ((fillHolePass m hole).1 = m ∧ (fillHolePass m hole).2 = hole.dropLast) ∨
    ((fillHolePass m hole).2.length + 3 = hole.length ∧
     (fillHolePass m hole).1.faces = m.faces ++ [m.nextId]) := by
  unfold fillHolePass at hok ⊢
  cases hl : hole.getLast? with
  | none =>
      have : hole.getLast?.isSome := List.getLast?_isSome.mpr hne
      rw [hl] at this
      simp at this
  | some backH =>
      rw [hl] at hok
      simp only at hok ⊢
      cases hge : m.getE backH with
      | none => rw [hge] at hok; simp at hok
      | some back =>
          rw [hge] at hok
          simp only at hok ⊢
          cases hsc : scanI m back hole hole with
          | none => rw [hsc] at hok; simp at hok
          | some r =>
              rw [hsc] at hok
              cases r with
              | none => exact Or.inl ⟨rfl, rfl⟩
              | some pr =>
                  obtain ⟨ih, jh⟩ := pr
                  simp only at hok ⊢
                  right
                  unfold synthFace at hok ⊢
                  simp only at hok ⊢
                  obtain ⟨hin_ok, hfaces⟩ := inheritRegion_ok _ _ _ hok
                  have a2 := synthStep_ok_anatomy _ _ 2 _ hin_ok
                  have a1 := synthStep_ok_anatomy _ _ 1 _ a2.1
                  have a0 := synthStep_ok_anatomy _ _ 0 _ a1.1
                  constructor
                  · have l0 := a0.2.1
                    have l1 := a1.2.1
                    have l2 := a2.2.1
                    simp only at l0 l1 l2
                    omega
                  · rw [hfaces, a2.2.2.1, a1.2.2.1, a0.2.2.1]
                    simp

/-- C6 termination half: fuel one above the candidate-list length is
enough — adding more fuel does not change the result of the loop. -/
theorem fillHoleLoop_fuel (n : Nat) : ∀ (m : Mesh) (hole : List Nat),
    hole.length < n → fillHoleLoop n m hole = fillHoleLoop (n + 1) m hole := by
  induction n with
  | zero => intro m hole h; simp at h
  | succ k ih =>
      intro m hole h
      by_cases he : hole = []
      · simp [fillHoleLoop, he]
      · show fillHoleLoop (k + 1) m hole = fillHoleLoop (k + 1 + 1) m hole
        rw [show fillHoleLoop (k + 1) m hole =
          if hole = [] then m
          else fillHoleLoop k (fillHolePass m hole).1 (fillHolePass m hole).2 from rfl]
        rw [show fillHoleLoop (k + 1 + 1) m hole =
          if hole = [] then m
          else fillHoleLoop (k + 1) (fillHolePass m hole).1 (fillHolePass m hole).2 from rfl]
        rw [if_neg he, if_neg he]
        have hlt : (fillHolePass m hole).2.length < k := by
          have := fillHolePass_shrinks m hole he
          have hne' : hole ≠ [] := he
          have : (fillHolePass m hole).2.length < hole.length := this
          omega
        exact ih _ _ hlt

/-- C6: for every traced hole candidate, the retriangulation phase of
`fillHoles` terminates: a pass over a non-empty candidate list strictly
shrinks it — when no UB occurs it either synthesizes a face consuming
exactly three edges or removes the trailing edge — and fuel one above the
list length already yields the loop's fixed result (possibly leaving a
residual unfilled boundary). -/
theorem fillHoles_retriangulation_terminates (m : Mesh) (hole : List Nat)
    (fuel : Nat) (hne : hole ≠ []) (hfuel : hole.length < fuel) :
    (fillHolePass m hole).2.length < hole.length ∧
    ((fillHolePass m hole).1.ok = true →
      ((fillHolePass m hole).1 = m ∧ (fillHolePass m hole).2 = hole.dropLast) ∨
      ((fillHolePass m hole).2.length + 3 = hole.length ∧
       (fillHolePass m hole).1.faces = m.faces ++ [m.nextId])) ∧
    fillHoleLoop fuel m hole = fillHoleLoop (fuel + 1) m hole :=
  ⟨fillHolePass_shrinks m hole hne, fillHolePass_modes m hole hne,
   fillHoleLoop_fuel fuel m hole hfuel⟩

/-- Witness for C6: one pass over the single boundary edge `6` of the
canonical quad (no 3-cycle exists, so the edge is popped), with fuel 2. -/
theorem fillHoles_retriangulation_terminates_witness :
    (fillHolePass quadC [6]).2.length < ([6] : List Nat).length ∧
    ((fillHolePass quadC [6]).1.ok = true →
      ((fillHolePass quadC [6]).1 = quadC ∧
       (fillHolePass quadC [6]).2 = ([6] : List Nat).dropLast) ∨
      ((fillHolePass quadC [6]).2.length + 3 = ([6] : List Nat).length ∧
       (fillHolePass quadC [6]).1.faces = quadC.faces ++ [quadC.nextId])) ∧
    fillHoleLoop 2 quadC [6] = fillHoleLoop 3 quadC [6] :=
  fillHoles_retriangulation_terminates quadC [6] 2 (by decide) (by decide)

/-- Per-entry description of the vertex loop of `finalize`: entry `i` of
the output holds the `i`-th vertex's stored position and the negation of
its stored normal. -/
theorem finalizeVerts_spec (m : Mesh) :
    ∀ (l : List Nat) (vb : List (Vec3 × Vec3)),
      finalizeVerts m l = some vb →
      ∀ i vh, l.get? i = some vh →
        ∃ v, m.getV vh = some v ∧ vb.get? i = some (v.pos, v.nrm.neg) := by
  intro l
  induction l with
  | nil => intro vb _ i vh hi; simp at hi
  | cons h t ih =>
      intro vb hvb i vh hi
      cases hv : m.getV h with
      | none => simp [finalizeVerts, hv] at hvb
      | some v =>
          cases ht : finalizeVerts m t with
          | none => simp [finalizeVerts, hv, ht] at hvb
          | some rest =>
              simp only [finalizeVerts, hv, ht] at hvb
              injection hvb with hvb
              subst hvb
              cases i with
              | zero =>
                  simp only [List.get?] at hi
                  injection hi with hi
                  subst hi
                  exact ⟨v, hv, rfl⟩
              | succ j =>
                  simp only [List.get?] at hi
                  obtain ⟨w, hw, hg⟩ := ih rest ht j vh hi
                  exact ⟨w, hw, hg⟩

/-- C9: for every vertex of the mesh, `finalize()` writes into the output
normal buffer the componentwise negation of that vertex's internally stored
normal (the sign-flipped output convention), while the position buffer
holds the stored position unchanged.  Buffers are per-vertex `Vec3`
entries, in `m_vertices` order. -/
theorem finalize_pos_negnormal (m : Mesh) (vb : List (Vec3 × Vec3))
    (ib : List (Nat × Nat × Nat)) (hrun : finalizeRun m = some (vb, ib))
    (i vh : Nat) (hv : m.verts.get? i = some vh) :
    ∃ v, m.getV vh = some v ∧ vb.get? i = some (v.pos, v.nrm.neg) := by
  unfold finalizeRun at hrun
  cases hb : finalizeVerts m m.verts with
  | none => rw [hb] at hrun; simp at hrun
  | some vb' =>
      rw [hb] at hrun
      cases hix : finalizeIndices m m.faces with
      | none => rw [hix] at hrun; simp at hrun
      | some ib' =>
          rw [hix] at hrun
          simp at hrun
          obtain ⟨hvb, _⟩ := hrun
          exact hvb ▸ finalizeVerts_spec m m.verts vb' hb i vh hv

/-- Witness for C9: on the canonical quad with normals, entry 3 of the
output pairs the stored position `(0,1,0)` with the negated normal
`(0,0,-2)` of the stored `(0,0,2)`. -/
theorem finalize_pos_negnormal_witness :
    ∃ v, quadN.getV 3 = some v ∧
      ([(⟨0, 0, 0⟩, ⟨0, 0, -1⟩), (⟨1, 0, 0⟩, ⟨0, 0, -1⟩),
        (⟨1, 1, 0⟩, ⟨0, 0, -1⟩), (⟨0, 1, 0⟩, ⟨0, 0, -2⟩)] :
        List (Vec3 × Vec3)).get? 3 = some (v.pos, v.nrm.neg) :=
  finalize_pos_negnormal quadN
    [(⟨0, 0, 0⟩, ⟨0, 0, -1⟩), (⟨1, 0, 0⟩, ⟨0, 0, -1⟩),
     (⟨1, 1, 0⟩, ⟨0, 0, -1⟩), (⟨0, 1, 0⟩, ⟨0, 0, -2⟩)]
    [(1, 2, 0), (2, 3, 0)] (by decide) 3 3 (by decide)

/-- C3 (defect evaluation): on the three-triangle mesh `meshEx`, collapsing
edge `5` (`0→1`) under a flicker heuristic that flags only face `17`
passes every structural guard and the first flicker scan, and the second
flicker scan triggers: the call returns `false` without UB, vertex `1` is
restored to its original position — but vertex `0` is left at the midpoint
`(1/2, 0, 0)` instead of its original `(0, 0, 0)`.  The claim (and §4.2 of
the spec) says every guard exit restores both endpoint positions. -/
theorem safeCollapse_leaves_start_moved :
    (safeCollapseEdge flickEx meshEx 5).2 = false ∧
    (safeCollapseEdge flickEx meshEx 5).1.ok = true ∧
    (meshEx.getV 0).map (fun v => v.pos) = some ⟨0, 0, 0⟩ ∧
    ((safeCollapseEdge flickEx meshEx 5).1.getV 0).map (fun v => v.pos) =
      some (Vec3.scale (1/2) (Vec3.add ⟨0, 0, 0⟩ ⟨1, 0, 0⟩)) ∧
    Vec3.scale (1/2) (Vec3.add ⟨0, 0, 0⟩ ⟨1, 0, 0⟩) ≠ ⟨0, 0, 0⟩ ∧
    ((safeCollapseEdge flickEx meshEx 5).1.getV 1).map (fun v => v.pos) =
      some ⟨1, 0, 0⟩ :=
  ⟨by decide, by decide, rfl, rfl,
   by
    intro h
    have hx : ((1 : ℚ)/2) * (0 + 1) = 0 := congrArg Vec3.x h
    norm_num at hx,
   rfl⟩

/-- C10: for every half-edge `e` such that `e.face` is absent or
`e.pair.face` is absent (a boundary edge), `flipEdge(e)` leaves the mesh
entirely unchanged — no vertex, edge, face, adjacency list, or normal is
modified, and nothing is allocated or freed.  (The C++ wraps the whole body
in `if (edge->pair->face != 0 && edge->face != 0)`; the returned state is
the input state, so every component is literally equal.) -/
theorem flipEdge_boundary_noop (m : Mesh) (eh : Nat) (e p : HEdge)
    (he : m.getE eh = some e) (hp : m.getE e.pair = some p)
    (hb : e.face = none ∨ p.face = none) :
    flipEdge m eh = m := by
  unfold flipEdge
  rw [he]
  simp only [Mesh.withOpt]
  rw [hp]
  simp only [Mesh.withOpt]
  rcases hb with h | h <;> simp [h]

/-- Witness for C10: flipping the boundary edge `5` (side `0→1` of the
first triangle, whose pair `6` has no face) leaves the canonical quad
untouched. -/
theorem flipEdge_boundary_noop_witness : flipEdge quadC 5 = quadC :=
  flipEdge_boundary_noop quadC 5
    ⟨0, 1, 6, some 4, some 7, false⟩ ⟨1, 0, 5, none, none, false⟩
    (by decide) (by decide) (Or.inr rfl)

/-- C8 (counterexample to the universal statement): not every edge with
faces on both sides flips back to an equivalent state.  `addTriangle(0,1,0)`
builds a reachable mesh satisfying both graph invariants in which edge `5`
carries face `4` on BOTH sides (its pair `6` is one of the same face's own
cycle edges), so the flip's both-faces guard passes; there is no enclosing
quad.  The first flip completes without UB but deletes the pair `5/6`
while the freed handle `6` is still the `next` target of the replacement
edge `9`, so the face-cycle check fails already after one flip; flipping
the replacement edge `9` (or its pair `10`, both sides carrying face `4`)
then dereferences the freed edge — undefined behaviour, not an equivalent
state. -/
theorem flip_flip_degenerate_breaks :
    pairInvCheck (addTriangle sq4 0 1 0) = true ∧
    faceInvCheck (addTriangle sq4 0 1 0) = true ∧
    (addTriangle sq4 0 1 0).ok = true ∧
    ((addTriangle sq4 0 1 0).getE 5).map (fun e => (e.pair, e.face)) = some (6, some 4) ∧
    ((addTriangle sq4 0 1 0).getE 6).map (fun e => e.face) = some (some 4) ∧
    (flipEdge (addTriangle sq4 0 1 0) 5).ok = true ∧
    ((flipEdge (addTriangle sq4 0 1 0) 5).getE 9).map (fun e => (e.pair, e.face, e.next)) =
      some (10, some 4, some 6) ∧
    (flipEdge (addTriangle sq4 0 1 0) 5).getE 6 = none ∧
    faceInvCheck (flipEdge (addTriangle sq4 0 1 0) 5) = false ∧
    (flipEdge (flipEdge (addTriangle sq4 0 1 0) 5) 9).ok = false ∧
    (flipEdge (flipEdge (addTriangle sq4 0 1 0) 5) 10).ok = false :=
  ⟨by decide, by decide, by decide, by decide, by decide, by decide,
   by decide, by decide, by decide, by decide, by decide⟩

/-- C8 (amended): on the spec's own canonical configuration — the quad
`addTriangle(0,1,2); addTriangle(0,2,3)` whose interior diagonal pair
`9/10` between vertices `0` and `2` has the two DISTINCT faces `4`/`11` on
its sides — flipping the diagonal and then flipping the replacement edge
created by that flip (handle `16`, between vertices `3` and `1`) returns
the quad to an equivalent state: the run hits no UB, the same 4 boundary
vertices and the same 4 boundary half-edge pairs (handles, endpoints and
pairings untouched) remain, and the 2 faces are again triangles
partitioning the quad along the original diagonal `0–2` (the fresh
diagonal pair `18/19` runs `2→0`/`0→2`).  The restriction to a proper
enclosing quad is necessary: the degenerate-triangle counterexample above
shows an invariant-satisfying mesh whose interior edge has the same face
on both sides, where the first flip already breaks the face cycle and
flipping the replacement edge is undefined behaviour. -/
theorem flip_flip_quad_equiv :
    quadFlip2.ok = true ∧
    quadFlip2.verts = [0, 1, 2, 3] ∧
    quadFlip2.faces = [4, 11] ∧
    ((quadFlip2.getE 5).map fun e => (e.start, e.endV, e.pair)) = some (0, 1, 6) ∧
    ((quadFlip2.getE 6).map fun e => (e.start, e.endV, e.pair, e.face)) = some (1, 0, 5, none) ∧
    ((quadFlip2.getE 7).map fun e => (e.start, e.endV, e.pair)) = some (1, 2, 8) ∧
    ((quadFlip2.getE 8).map fun e => (e.start, e.endV, e.pair, e.face)) = some (2, 1, 7, none) ∧
    ((quadFlip2.getE 12).map fun e => (e.start, e.endV, e.pair)) = some (2, 3, 13) ∧
    ((quadFlip2.getE 13).map fun e => (e.start, e.endV, e.pair, e.face)) = some (3, 2, 12, none) ∧
    ((quadFlip2.getE 14).map fun e => (e.start, e.endV, e.pair)) = some (3, 0, 15) ∧
    ((quadFlip2.getE 15).map fun e => (e.start, e.endV, e.pair, e.face)) = some (0, 3, 14, none) ∧
    ((quadFlip2.getE 18).map fun e => (e.start, e.endV, e.pair, e.face, e.next)) =
      some (2, 0, 19, some 11, some 5) ∧
    ((quadFlip2.getE 19).map fun e => (e.start, e.endV, e.pair, e.face, e.next)) =
      some (0, 2, 18, some 4, some 12) ∧
    (faceEdge quadFlip2 4 0, faceEdge quadFlip2 4 1, faceEdge quadFlip2 4 2, faceEdge quadFlip2 4 3) =
      (some 19, some 12, some 14, some 19) ∧
    (faceEdge quadFlip2 11 0, faceEdge quadFlip2 11 1, faceEdge quadFlip2 11 2, faceEdge quadFlip2 11 3) =
      (some 18, some 5, some 7, some 18) ∧
    ((quadFlip2.getE 5).map fun e => e.face) = some (some 11) ∧
    ((quadFlip2.getE 7).map fun e => e.face) = some (some 11) ∧
    ((quadFlip2.getE 12).map fun e => e.face) = some (some 4) ∧
    ((quadFlip2.getE 14).map fun e => e.face) = some (some 4) := by
  refine ⟨?_, ?_, ?_, ?_, ?_, ?_, ?_, ?_, ?_, ?_, ?_, ?_, ?_, ?_, ?_, ?_, ?_, ?_, ?_⟩
  all_goals decide

/-- C5 (counterexample to the literal reuse condition): when the second
triangle `(0, 2, 3)` is added to `tri1` (= `addTriangle(0,1,2)`), no live
half-edge runs `2→0` with a free face — the only opposite-direction edge is
`9` (`2→0`) and it carries face `4` — yet the code's scan still returns it
and `addTriangle` reuses its pair `10`, attaching face `11` to it without
allocating (5 new handles: the face plus two fresh pairs, not 7).  The
spec-literal builder `addTriangleSpec` would find no face-free opposite
edge and allocate a fresh pair, leaving TWO physical pairs between `0` and
`2` — violating the spec's own shared-edge consequence, which the code's
actual (unconditional) reuse delivers. -/
theorem addTriangle_reuse_ignores_faces :
    oppositeFreeEdge tri1 0 2 = false ∧
    halfEdgeToVertex tri1 0 2 = some (some 9) ∧
    (tri1.getE 9).map (fun e => (e.start, e.endV, e.face)) = some (2, 0, some 4) ∧
    (quadC.getE 10).map (fun e => (e.start, e.endV, e.face)) = some (0, 2, some 11) ∧
    quadC.nextId = tri1.nextId + 5 ∧
    countEdgesBetween quadC 0 2 = 2 ∧
    (addTriangleSpec tri1 0 2 3).nextId = tri1.nextId + 7 ∧
    countEdgesBetween (addTriangleSpec tri1 0 2 3) 0 2 = 4 := by
  refine ⟨by decide, by decide, by decide, by decide, by decide, by decide, ?_, ?_⟩
  · decide
  · decide

/-- `nextId` is untouched by `updV`. -/
@[simp] theorem Mesh.updV_nextId (m : Mesh) (h : Nat) (f : HVertex → HVertex) :
    (m.updV h f).nextId = m.nextId := by
  unfold Mesh.updV; cases m.getV h <;> rfl

/-- Two vertex updates at distinct live handles: edge reads and `nextId`
pass through, and each handle holds its updated record. -/
theorem Mesh.updV2_facts (m : Mesh) (a b : Nat) (f g : HVertex → HVertex)
    (va vb : HVertex) (hva : m.getV a = some va) (hvb : m.getV b = some vb)
    (hne : a ≠ b) :
    ((m.updV a f).updV b g).nextId = m.nextId ∧
    (∀ k, ((m.updV a f).updV b g).getE k = m.getE k) ∧
    ((m.updV a f).updV b g).getV a = some (f va) ∧
    ((m.updV a f).updV b g).getV b = some (g vb) := by
  have h1 := Mesh.updV_getV_of m a f va hva
  have hb1 : (m.updV a f).getV b = some vb := by
    rw [h1 b, if_neg (fun hh => hne hh.symm)]; exact hvb
  have h2 := Mesh.updV_getV_of (m.updV a f) b g vb hb1
  refine ⟨by simp, fun k => by simp, ?_, ?_⟩
  · rw [h2 a, if_neg hne, h1 a, if_pos rfl]
  · rw [h2 b, if_pos rfl]

/-- C5 (amended): each directed-edge resolution step of `addTriangle`
reuses an existing pair exactly when the scan finds ANY half-edge running
in the opposite direction — the last match in the end vertex's incoming
list, with no condition on its face: the found edge's pair is pointed at
the new face, nothing is allocated, and every other edge record is
untouched.  Otherwise a fresh pair is allocated and both halves are
registered in the two endpoints' outgoing/incoming lists. -/
theorem resolveEdge_amended (m : Mesh) (fh cur nxt : Nat) :
    (∀ h e p, halfEdgeToVertex m cur nxt = some (some h) →
       m.getE h = some e → m.getE e.pair = some p →
       (resolveEdge m fh cur nxt).2 = e.pair ∧
       (resolveEdge m fh cur nxt).1.nextId = m.nextId ∧
       (resolveEdge m fh cur nxt).1.getE e.pair = some { p with face := some fh } ∧
       ∀ g, g ≠ e.pair → (resolveEdge m fh cur nxt).1.getE g = m.getE g) ∧
    (∀ vc vn, halfEdgeToVertex m cur nxt = some none →
       m.getV cur = some vc → m.getV nxt = some vn → cur ≠ nxt →
       (resolveEdge m fh cur nxt).2 = m.nextId ∧
       (resolveEdge m fh cur nxt).1.nextId = m.nextId + 2 ∧
       (resolveEdge m fh cur nxt).1.getE m.nextId =
         some ⟨cur, nxt, m.nextId + 1, some fh, none, false⟩ ∧
       (resolveEdge m fh cur nxt).1.getE (m.nextId + 1) =
         some ⟨nxt, cur, m.nextId, none, none, false⟩ ∧
       (resolveEdge m fh cur nxt).1.getV cur =
         some { vc with outE := vc.outE ++ [m.nextId], inE := vc.inE ++ [m.nextId + 1] } ∧
       (resolveEdge m fh cur nxt).1.getV nxt =
         some { vn with inE := vn.inE ++ [m.nextId], outE := vn.outE ++ [m.nextId + 1] }) := by
  constructor
  · intro h e p hfind hge hgp
    have hres : resolveEdge m fh cur nxt =
        (m.updE e.pair (fun q => { q with face := some fh }), e.pair) := by
      unfold resolveEdge
      simp only [hfind, hge]
    rw [hres]
    refine ⟨rfl, ?_, ?_, ?_⟩
    · exact Mesh.updE_nextId m e.pair _
    · exact (Mesh.updE_getE_of m e.pair _ p hgp e.pair).trans (by simp)
    · intro g hg
      exact (Mesh.updE_getE_of m e.pair _ p hgp g).trans (by simp [hg])
  · intro vc vn hfind hvc hvn hne
    have hres : resolveEdge m fh cur nxt =
        ((({ m with
              estore := (m.estore.set m.nextId ⟨cur, nxt, m.nextId + 1, some fh, none, false⟩).set
                (m.nextId + 1) ⟨nxt, cur, m.nextId, none, none, false⟩,
              nextId := m.nextId + 2 }).updV cur
            (fun v => { v with outE := v.outE ++ [m.nextId], inE := v.inE ++ [m.nextId + 1] })).updV nxt
            (fun v => { v with inE := v.inE ++ [m.nextId], outE := v.outE ++ [m.nextId + 1] }),
          m.nextId) := by
      unfold resolveEdge
      simp only [hfind]
    obtain ⟨hn, hE, hA, hB⟩ :=
      Mesh.updV2_facts
        { m with
            estore := (m.estore.set m.nextId ⟨cur, nxt, m.nextId + 1, some fh, none, false⟩).set
              (m.nextId + 1) ⟨nxt, cur, m.nextId, none, none, false⟩,
            nextId := m.nextId + 2 }
        cur nxt
        (fun v => { v with outE := v.outE ++ [m.nextId], inE := v.inE ++ [m.nextId + 1] })
        (fun v => { v with inE := v.inE ++ [m.nextId], outE := v.outE ++ [m.nextId + 1] })
        vc vn hvc hvn hne
    rw [hres]
    refine ⟨rfl, hn, ?_, ?_, hA, hB⟩
    · exact (hE m.nextId).trans (by simp [Mesh.getE])
    · exact (hE (m.nextId + 1)).trans (by simp [Mesh.getE])

/-- Three edge updates at pairwise distinct live handles: each handle holds
its updated record afterwards. -/
theorem Mesh.updE3_facts (m : Mesh) (r0 r1 r2 : Nat) (f0 f1 f2 : HEdge → HEdge)
    (e0 e1 e2 : HEdge) (h0 : m.getE r0 = some e0) (h1 : m.getE r1 = some e1)
    (h2 : m.getE r2 = some e2) (d01 : r0 ≠ r1) (d12 : r1 ≠ r2) (d02 : r0 ≠ r2) :
    (((m.updE r0 f0).updE r1 f1).updE r2 f2).getE r0 = some (f0 e0) ∧
    (((m.updE r0 f0).updE r1 f1).updE r2 f2).getE r1 = some (f1 e1) ∧
    (((m.updE r0 f0).updE r1 f1).updE r2 f2).getE r2 = some (f2 e2) := by
  have g0 := Mesh.updE_getE_of m r0 f0 e0 h0
  have h1' : (m.updE r0 f0).getE r1 = some e1 := by
    rw [g0 r1, if_neg (fun hh => d01 hh.symm)]; exact h1
  have g1 := Mesh.updE_getE_of (m.updE r0 f0) r1 f1 e1 h1'
  have h2' : ((m.updE r0 f0).updE r1 f1).getE r2 = some e2 := by
    rw [g1 r2, if_neg (fun hh => d12 hh.symm), g0 r2, if_neg (fun hh => d02 hh.symm)]
    exact h2
  have g2 := Mesh.updE_getE_of ((m.updE r0 f0).updE r1 f1) r2 f2 e2 h2'
  refine ⟨?_, ?_, ?_⟩
  · rw [g2 r0, if_neg d02, g1 r0, if_neg d01, g0 r0, if_pos rfl]
  · rw [g2 r1, if_neg d12, g1 r1, if_pos rfl]
  · rw [g2 r2, if_pos rfl]

/-- The face-pushing tail of `addTriangle` never changes an edge record,
whether or not the normal computation succeeded. -/
theorem Mesh.withOpt_mkface_getE (m : Mesh) (x : Option Vec3) (fh r0 : Nat) (g : Nat) :
    (m.withOpt x fun n =>
        { m.setF fh ⟨r0, n, none, false⟩ with faces := m.faces ++ [fh] }).getE g
      = m.getE g := by
  cases x <;> rfl

/-- If the face-pushing tail of `addTriangle` left a record at a previously
free face handle, the normal computation succeeded and the record is the
freshly built one. -/
theorem Mesh.withOpt_mkface_getF (m : Mesh) (x : Option Vec3) (fh r0 : Nat) (f : HFace)
    (hfresh : m.getF fh = none)
    (hstored : (m.withOpt x fun n =>
        { m.setF fh ⟨r0, n, none, false⟩ with faces := m.faces ++ [fh] }).getF fh
      = some f) :
    ∃ n, x = some n ∧ f = ⟨r0, n, none, false⟩ := by
  cases x with
  | none =>
      rw [show (m.withOpt none fun n =>
          { m.setF fh ⟨r0, n, none, false⟩ with faces := m.faces ++ [fh] }) = m.poison from rfl,
        Mesh.poison_getF, hfresh] at hstored
      exact absurd hstored (by simp)
  | some n =>
      refine ⟨n, rfl, ?_⟩
      have hred : (m.withOpt (some n) fun n =>
          { m.setF fh ⟨r0, n, none, false⟩ with faces := m.faces ++ [fh] }).getF fh
          = some (⟨r0, n, none, false⟩ : HFace) := by
        show (m.fstore.set fh ⟨r0, n, none, false⟩).find fh = _
        simp
      rw [hred] at hstored
      exact (Option.some.injEq _ _ ▸ hstored).symm

/-- The face-cycle property only reads edge records, so it transports along
meshes with identical edge reads. -/
theorem faceCycleOK_of_getE_eq (mA mB : Mesh) (fh : Nat) (f : HFace)
    (hEq : ∀ g, mA.getE g = mB.getE g) (h : faceCycleOK mA fh f) :
    faceCycleOK mB fh f := by
  obtain ⟨h1, h2, e0, e1, e2, g0, n0, g1, n1, g2, n2, q0, q1, q2⟩ := h
  refine ⟨h1, h2, e0, e1, e2, ?_, n0, ?_, n1, ?_, n2, q0, q1, q2⟩
  · rw [← hEq f.edge]; exact g0
  · rw [← hEq h1]; exact g1
  · rw [← hEq h2]; exact g2

/-- C2 (counterexample): the face-cycle invariant is not maintained across
arbitrary public-operation sequences.  Adding the SAME triangle `(0,1,2)`
twice makes the second `addTriangle` reuse all three interior edges `5`,
`7`, `9` of the existing face `4` (their pairs run opposite to the new
directed edges) and overwrite their face references with the new face `11`.
Face `4` stays live with `m_edge = 5`, its `next` 3-cycle still closes, but
none of the three edges on the cycle references face `4` any more — the
claim's "all three edges carry a face reference equal to f" fails for a
mesh built solely by public operations, with no UB anywhere in the run. -/
theorem duplicate_triangle_breaks_face_cycle :
    (addTriangle tri1 0 1 2).ok = true ∧
    (addTriangle tri1 0 1 2).faces = [4, 11] ∧
    ((addTriangle tri1 0 1 2).getF 4).map (fun f => f.edge) = some 5 ∧
    ((addTriangle tri1 0 1 2).getE 5).map (fun e => (e.face, e.next)) =
      some (some 11, some 7) ∧
    ((addTriangle tri1 0 1 2).getE 7).map (fun e => (e.face, e.next)) =
      some (some 11, some 9) ∧
    ((addTriangle tri1 0 1 2).getE 9).map (fun e => (e.face, e.next)) =
      some (some 11, some 5) ∧
    faceCheckF (addTriangle tri1 0 1 2) 4 = false :=
  ⟨by decide, by decide, by decide, by decide, by decide, by decide, by decide⟩

/-- C2 (amended): the face freshly created by a successful `addTriangle`
satisfies the face-cycle property, provided the three resolved half-edges
are pairwise distinct and each still carries the new face once all three
resolutions are done (the conditions a duplicate directed edge violates —
and the duplicate-triangle counterexample shows pre-existing faces lose the
property when their edges are re-resolved).  `m1`–`m3` name the meshes
after each resolution step, `e0`–`e2` the resolved records, and
`m3.getF m.nextId = none` says the fresh face handle is unoccupied. -/
theorem addTriangle_new_face_cycle (m : Mesh) (a b c va vb vc r0 r1 r2 : Nat)
    (m1 m2 m3 : Mesh) (e0 e1 e2 : HEdge) (f : HFace)
    (ha : m.verts.get? a = some va) (hb : m.verts.get? b = some vb)
    (hc : m.verts.get? c = some vc)
    (h1 : resolveEdge { m with nextId := m.nextId + 1 } m.nextId va vb = (m1, r0))
    (h2 : resolveEdge m1 m.nextId vb vc = (m2, r1))
    (h3 : resolveEdge m2 m.nextId vc va = (m3, r2))
    (d01 : r0 ≠ r1) (d12 : r1 ≠ r2) (d02 : r0 ≠ r2)
    (he0 : m3.getE r0 = some e0) (he1 : m3.getE r1 = some e1)
    (he2 : m3.getE r2 = some e2)
    (hf0 : e0.face = some m.nextId) (hf1 : e1.face = some m.nextId)
    (hf2 : e2.face = some m.nextId)
    (hfresh : m3.getF m.nextId = none)
    (hstored : (addTriangle m a b c).getF m.nextId = some f) :
    f.edge = r0 ∧ faceCycleOK (addTriangle m a b c) m.nextId f := by
  have hM : addTriangle m a b c =
      (((m3.updE r0 (fun e => { e with next := some r1 })).updE r1
          (fun e => { e with next := some r2 })).updE r2
          (fun e => { e with next := some r0 })).withOpt
        (calcNormal
          (((m3.updE r0 (fun e => { e with next := some r1 })).updE r1
              (fun e => { e with next := some r2 })).updE r2
              (fun e => { e with next := some r0 })) r0)
        (fun n =>
          { (((m3.updE r0 (fun e => { e with next := some r1 })).updE r1
                (fun e => { e with next := some r2 })).updE r2
                (fun e => { e with next := some r0 })).setF m.nextId ⟨r0, n, none, false⟩ with
            faces := (((m3.updE r0 (fun e => { e with next := some r1 })).updE r1
                (fun e => { e with next := some r2 })).updE r2
                (fun e => { e with next := some r0 })).faces ++ [m.nextId] }) := by
    unfold addTriangle
    simp only [ha, hb, hc, Mesh.withOpt, h1, h2, h3]
  rw [hM] at hstored ⊢
  have hfreshX : (((m3.updE r0 (fun e => { e with next := some r1 })).updE r1
      (fun e => { e with next := some r2 })).updE r2
      (fun e => { e with next := some r0 })).getF m.nextId = none := by
    simp only [Mesh.updE_getF]; exact hfresh
  obtain ⟨n, hx, hf⟩ := Mesh.withOpt_mkface_getF _ _ m.nextId r0 f hfreshX hstored
  subst hf
  refine ⟨rfl, ?_⟩
  obtain ⟨x0, x1, x2⟩ := Mesh.updE3_facts m3 r0 r1 r2
    (fun e => { e with next := some r1 }) (fun e => { e with next := some r2 })
    (fun e => { e with next := some r0 }) e0 e1 e2 he0 he1 he2 d01 d12 d02
  refine faceCycleOK_of_getE_eq _ _ m.nextId _
    (fun g => (Mesh.withOpt_mkface_getE _ _ m.nextId r0 g).symm) ?_
  exact ⟨r1, r2, { e0 with next := some r1 }, { e1 with next := some r2 },
    { e2 with next := some r0 }, x0, rfl, x1, rfl, x2, rfl, hf0, hf1, hf2⟩

/-- Witness for the amended C2: building the canonical quad's second face
`11` on `tri1` resolves the three distinct edges `10` (reused diagonal),
`12` and `14` (fresh), all stamped with face `11`; the created face record
points at edge `10` and its `next` 3-cycle `10→12→14→10` closes with all
three edges referencing face `11`. -/
theorem addTriangle_new_face_cycle_witness :
    (⟨10, Vec3.cross (Vec3.sub ⟨1, 1, 0⟩ ⟨0, 0, 0⟩) (Vec3.sub ⟨0, 1, 0⟩ ⟨0, 0, 0⟩),
        none, false⟩ : HFace).edge = 10 ∧
    faceCycleOK (addTriangle tri1 0 2 3) tri1.nextId
      ⟨10, Vec3.cross (Vec3.sub ⟨1, 1, 0⟩ ⟨0, 0, 0⟩) (Vec3.sub ⟨0, 1, 0⟩ ⟨0, 0, 0⟩),
        none, false⟩ :=
  addTriangle_new_face_cycle tri1 0 2 3 0 2 3 10 12 14
    (resolveEdge { tri1 with nextId := tri1.nextId + 1 } tri1.nextId 0 2).1
    (resolveEdge (resolveEdge { tri1 with nextId := tri1.nextId + 1 } tri1.nextId 0 2).1
      tri1.nextId 2 3).1
    (resolveEdge (resolveEdge (resolveEdge { tri1 with nextId := tri1.nextId + 1 }
      tri1.nextId 0 2).1 tri1.nextId 2 3).1 tri1.nextId 3 0).1
    ⟨0, 2, 9, some 11, none, false⟩ ⟨2, 3, 13, some 11, none, false⟩
    ⟨3, 0, 15, some 11, none, false⟩
    ⟨10, Vec3.cross (Vec3.sub ⟨1, 1, 0⟩ ⟨0, 0, 0⟩) (Vec3.sub ⟨0, 1, 0⟩ ⟨0, 0, 0⟩),
        none, false⟩
    (by decide) (by decide) (by decide) rfl rfl rfl
    (by decide) (by decide) (by decide)
    (by decide) (by decide) (by decide)
    (by decide) (by decide) (by decide)
    (by decide) rfl

/-- Witness for the amended C5: in `tri1` the scan for `0→2` finds edge `9`
(whose face is `4`, not free); resolving with new face `11` reuses pair
`10` and stamps face `11` on it; resolving `2→3`, where no opposite edge
exists, allocates the fresh pair `11/12` registered at both endpoints. -/
theorem resolveEdge_amended_witness :
    (resolveEdge tri1 11 0 2).1.getE 10 = some ⟨0, 2, 9, some 11, none, false⟩ ∧
    (resolveEdge tri1 11 2 3).1.getE 11 = some ⟨2, 3, 12, some 11, none, false⟩ ∧
    (resolveEdge tri1 11 2 3).1.getV 3 =
      some ⟨⟨0, 1, 0⟩, ⟨0, 0, 0⟩, [12], [11]⟩ :=
  ⟨((resolveEdge_amended tri1 11 0 2).1 9 ⟨2, 0, 10, some 4, some 5, false⟩
      ⟨0, 2, 9, none, none, false⟩ (by decide) (by decide) (by decide)).2.2.1,
   ((resolveEdge_amended tri1 11 2 3).2 ⟨⟨1, 1, 0⟩, ⟨0, 0, 0⟩, [8, 9], [7, 10]⟩
      ⟨⟨0, 1, 0⟩, ⟨0, 0, 0⟩, [], []⟩ (by decide) rfl rfl
      (by decide)).2.2.1,
   ((resolveEdge_amended tri1 11 2 3).2 ⟨⟨1, 1, 0⟩, ⟨0, 0, 0⟩, [8, 9], [7, 10]⟩
      ⟨⟨0, 1, 0⟩, ⟨0, 0, 0⟩, [], []⟩ (by decide) rfl rfl
      (by decide)).2.2.2.2.2⟩

/-- A successful `Store.find` pins an actual entry of the association
list. -/
theorem Store.find_mem {α : Type} (s : Store α) (h : Nat) (a : α)
    (hf : s.find h = some a) : (h, some a) ∈ s := by
  induction s with
  | nil => simp [Store.find] at hf
  | cons kv rest ih =>
      obtain ⟨k, v⟩ := kv
      by_cases hk : h = k
      · subst hk
        simp only [Store.find, if_pos rfl] at hf
        subst hf
        exact List.mem_cons_self _ _
      · simp only [Store.find, if_neg hk] at hf
        exact List.mem_cons_of_mem _ (ih hf)

/-- The executable boundedness check implies `EdgesBounded`. -/
theorem edgesBoundedCheck_sound (m : Mesh) (hc : edgesBoundedCheck m = true) :
    EdgesBounded m := by
  intro h e hf
  have hm := Store.find_mem m.estore h e hf
  have h2 := (List.all_eq_true.mp hc) (h, some e) hm
  exact of_decide_eq_true (by simpa using h2)

/-- The pairing invariant only reads the edge store. -/
theorem PairInv_of_getE_eq (mA mB : Mesh) (hE : ∀ g, mB.getE g = mA.getE g)
    (hP : PairInv mA) : PairInv mB := by
  intro h e hf
  obtain ⟨p, hp, c1, c2, c3⟩ := hP h e ((hE h).symm.trans hf)
  exact ⟨p, (hE e.pair).trans hp, c1, c2, c3⟩

/-- Handle-boundedness only reads the edge store and the counter. -/
theorem EdgesBounded_of_getE_eq (mA mB : Mesh) (hE : ∀ g, mB.getE g = mA.getE g)
    (hN : mB.nextId = mA.nextId) (hB : EdgesBounded mA) : EdgesBounded mB := by
  intro h e hf
  rw [hN]
  exact hB h e ((hE h).symm.trans hf)

/-- Raising the allocation counter keeps handle-boundedness. -/
theorem EdgesBounded_raiseNextId (m : Mesh) (n : Nat) (hn : m.nextId ≤ n)
    (hB : EdgesBounded m) : EdgesBounded { m with nextId := n } := by
  intro h e hf
  have hb := hB h e hf
  exact ⟨lt_of_lt_of_le hb.1 hn, lt_of_lt_of_le hb.2 hn⟩

/-- An in-place edge update that keeps `pair`, `start` and `endV` (such as
stamping a face or relinking `next`) preserves the pairing invariant. -/
theorem PairInv_updE_keep (m : Mesh) (h : Nat) (fn : HEdge → HEdge)
    (hfn : ∀ e, (fn e).pair = e.pair ∧ (fn e).start = e.start ∧ (fn e).endV = e.endV)
    (hP : PairInv m) : PairInv (m.updE h fn) := by
  cases hg : m.getE h with
  | none =>
      refine PairInv_of_getE_eq m _ (fun g => ?_) hP
      unfold Mesh.updE
      rw [hg]
      rfl
  | some e0 =>
      have hE := Mesh.updE_getE_of m h fn e0 hg
      intro g eg hgf
      rw [hE g] at hgf
      by_cases hgh : g = h
      · rw [if_pos hgh] at hgf
        have heg : eg = fn e0 := (Option.some.inj hgf).symm
        have hegp : eg.pair = e0.pair := by rw [heg]; exact (hfn e0).1
        have hegs : eg.start = e0.start := by rw [heg]; exact (hfn e0).2.1
        have hege : eg.endV = e0.endV := by rw [heg]; exact (hfn e0).2.2
        obtain ⟨p, hp, pc1, pc2, pc3⟩ := hP h e0 hg
        by_cases hph : e0.pair = h
        · have hpe : p = e0 := by
            rw [hph] at hp
            exact Option.some.inj (hp.symm.trans hg)
          have hse : e0.start = e0.endV := hpe ▸ pc2
          refine ⟨fn e0, ?_, ?_, ?_, ?_⟩
          · rw [hE eg.pair, hegp, hph, if_pos rfl]
          · rw [(hfn e0).1, hph, hgh]
          · rw [(hfn e0).2.1, hege, hse]
          · rw [(hfn e0).2.2, hegs, hse]
        · refine ⟨p, ?_, ?_, ?_, ?_⟩
          · rw [hE eg.pair, hegp, if_neg hph]
            exact hp
          · rw [pc1, hgh]
          · rw [pc2, hege]
          · rw [pc3, hegs]
      · rw [if_neg hgh] at hgf
        obtain ⟨p, hp, pc1, pc2, pc3⟩ := hP g eg hgf
        by_cases hph : eg.pair = h
        · have hpe : p = e0 := by
            rw [hph] at hp
            exact Option.some.inj (hp.symm.trans hg)
          refine ⟨fn e0, ?_, ?_, ?_, ?_⟩
          · rw [hE eg.pair, if_pos hph]
          · rw [(hfn e0).1, ← hpe, pc1]
          · rw [(hfn e0).2.1, ← hpe, pc2]
          · rw [(hfn e0).2.2, ← hpe, pc3]
        · refine ⟨p, ?_, ?_, ?_, ?_⟩
          · rw [hE eg.pair, if_neg hph]
            exact hp
          · exact pc1
          · exact pc2
          · exact pc3

/-- An in-place edge update that keeps `pair` preserves handle-boundedness. -/
theorem EdgesBounded_updE_keep (m : Mesh) (h : Nat) (fn : HEdge → HEdge)
    (hfn : ∀ e, (fn e).pair = e.pair) (hB : EdgesBounded m) :
    EdgesBounded (m.updE h fn) := by
  cases hg : m.getE h with
  | none =>
      refine EdgesBounded_of_getE_eq m _ (fun g => ?_) ?_ hB
      · unfold Mesh.updE; rw [hg]; rfl
      · unfold Mesh.updE; rw [hg]; rfl
  | some e0 =>
      intro g eg hgf
      rw [Mesh.updE_getE_of m h fn e0 hg g] at hgf
      rw [Mesh.updE_nextId]
      by_cases hgh : g = h
      · rw [if_pos hgh] at hgf
        have heg : eg = fn e0 := (Option.some.inj hgf).symm
        have hb := hB h e0 hg
        refine ⟨?_, ?_⟩
        · rw [hgh]; exact hb.1
        · rw [heg, hfn e0]; exact hb.2
      · rw [if_neg hgh] at hgf
        exact hB g eg hgf

/-- One edge-resolution step preserves the pairing invariant and
handle-boundedness: the reuse branch only stamps a face, the fresh branch
adds a mutually paired couple above every live handle. -/
theorem resolveEdge_preserves (m : Mesh) (fh cur nxt : Nat)
    (hP : PairInv m) (hB : EdgesBounded m) :
    PairInv (resolveEdge m fh cur nxt).1 ∧ EdgesBounded (resolveEdge m fh cur nxt).1 := by
  cases hfind : halfEdgeToVertex m cur nxt with
  | none =>
      have hres : resolveEdge m fh cur nxt = (m.poison, 0) := by
        unfold resolveEdge; simp only [hfind]
      rw [hres]
      exact ⟨hP, hB⟩
  | some o =>
      cases o with
      | some h =>
          cases hge : m.getE h with
          | none =>
              have hres : resolveEdge m fh cur nxt = (m.poison, 0) := by
                unfold resolveEdge; simp only [hfind, hge]
              rw [hres]
              exact ⟨hP, hB⟩
          | some e =>
              have hres : resolveEdge m fh cur nxt =
                  (m.updE e.pair (fun p => { p with face := some fh }), e.pair) := by
                unfold resolveEdge; simp only [hfind, hge]
              rw [hres]
              exact ⟨PairInv_updE_keep m e.pair _ (fun q => ⟨rfl, rfl, rfl⟩) hP,
                     EdgesBounded_updE_keep m e.pair _ (fun q => rfl) hB⟩
      | none =>
          have hres : resolveEdge m fh cur nxt =
              ((({ m with
                    estore := (m.estore.set m.nextId
                        ⟨cur, nxt, m.nextId + 1, some fh, none, false⟩).set
                      (m.nextId + 1) ⟨nxt, cur, m.nextId, none, none, false⟩,
                    nextId := m.nextId + 2 }).updV cur
                  (fun v => { v with outE := v.outE ++ [m.nextId], inE := v.inE ++ [m.nextId + 1] })).updV nxt
                  (fun v => { v with inE := v.inE ++ [m.nextId], outE := v.outE ++ [m.nextId + 1] }),
                m.nextId) := by
            unfold resolveEdge; simp only [hfind]
          rw [hres]
          have hbase : PairInv { m with
              estore := (m.estore.set m.nextId ⟨cur, nxt, m.nextId + 1, some fh, none, false⟩).set
                (m.nextId + 1) ⟨nxt, cur, m.nextId, none, none, false⟩,
              nextId := m.nextId + 2 } ∧
            EdgesBounded { m with
              estore := (m.estore.set m.nextId ⟨cur, nxt, m.nextId + 1, some fh, none, false⟩).set
                (m.nextId + 1) ⟨nxt, cur, m.nextId, none, none, false⟩,
              nextId := m.nextId + 2 } := by
            have hget : ∀ g, ({ m with
                estore := (m.estore.set m.nextId ⟨cur, nxt, m.nextId + 1, some fh, none, false⟩).set
                  (m.nextId + 1) ⟨nxt, cur, m.nextId, none, none, false⟩,
                nextId := m.nextId + 2 } : Mesh).getE g =
                if g = m.nextId + 1 then some ⟨nxt, cur, m.nextId, none, none, false⟩
                else if g = m.nextId then some ⟨cur, nxt, m.nextId + 1, some fh, none, false⟩
                else m.getE g := by
              intro g
              show ((m.estore.set m.nextId _).set (m.nextId + 1) _).find g = _
              simp [Mesh.getE]
            constructor
            · intro g eg hgf
              rw [hget g] at hgf
              by_cases hgp : g = m.nextId + 1
              · rw [if_pos hgp] at hgf
                have heg := (Option.some.inj hgf).symm
                refine ⟨⟨cur, nxt, m.nextId + 1, some fh, none, false⟩, ?_, ?_, ?_, ?_⟩
                · rw [hget, heg]
                  show (if m.nextId = m.nextId + 1 then _ else _) = _
                  rw [if_neg (by omega), if_pos rfl]
                · show m.nextId + 1 = g
                  omega
                · rw [heg]
                · rw [heg]
              · rw [if_neg hgp] at hgf
                by_cases hge : g = m.nextId
                · rw [if_pos hge] at hgf
                  have heg := (Option.some.inj hgf).symm
                  refine ⟨⟨nxt, cur, m.nextId, none, none, false⟩, ?_, ?_, ?_, ?_⟩
                  · rw [hget, heg]
                    show (if m.nextId + 1 = m.nextId + 1 then _ else _) = _
                    rw [if_pos rfl]
                  · show m.nextId = g
                    omega
                  · rw [heg]
                  · rw [heg]
                · rw [if_neg hge] at hgf
                  obtain ⟨p, hp, pc1, pc2, pc3⟩ := hP g eg hgf
                  have hbnd := hB g eg hgf
                  refine ⟨p, ?_, pc1, pc2, pc3⟩
                  rw [hget eg.pair, if_neg (by omega), if_neg (by omega)]
                  exact hp
            · intro g eg hgf
              rw [hget g] at hgf
              show g < m.nextId + 2 ∧ eg.pair < m.nextId + 2
              by_cases hgp : g = m.nextId + 1
              · rw [if_pos hgp] at hgf
                have heg := (Option.some.inj hgf).symm
                rw [heg]
                exact ⟨by omega, by show m.nextId < m.nextId + 2; omega⟩
              · rw [if_neg hgp] at hgf
                by_cases hge : g = m.nextId
                · rw [if_pos hge] at hgf
                  have heg := (Option.some.inj hgf).symm
                  rw [heg]
                  exact ⟨by omega, by show m.nextId + 1 < m.nextId + 2; omega⟩
                · rw [if_neg hge] at hgf
                  have hbnd := hB g eg hgf
                  exact ⟨by omega, by omega⟩
          exact ⟨PairInv_of_getE_eq _ _ (fun g => by simp) hbase.1,
                 EdgesBounded_of_getE_eq _ _ (fun g => by simp) (by simp) hbase.2⟩

/-- The face-pushing tail of `addTriangle` touches no edge record and keeps
the counter, whether or not the normal computation succeeded. -/
theorem PB_withOpt_mkface (m : Mesh) (x : Option Vec3) (fh r0 : Nat)
    (hP : PairInv m) (hB : EdgesBounded m) :
    PairInv (m.withOpt x fun n =>
      { m.setF fh ⟨r0, n, none, false⟩ with faces := m.faces ++ [fh] }) ∧
    EdgesBounded (m.withOpt x fun n =>
      { m.setF fh ⟨r0, n, none, false⟩ with faces := m.faces ++ [fh] }) := by
  cases x with
  | none => exact ⟨hP, hB⟩
  | some n =>
      exact ⟨PairInv_of_getE_eq m _ (fun g => rfl) hP,
             EdgesBounded_of_getE_eq m _ (fun g => rfl) rfl hB⟩

/-- C1 (counterexample): `deleteEdge(e, false)` — a public operation —
breaks the pairing invariant.  On the canonical quad it frees only half
`5` of the boundary pair `5/6`: the run hits no UB, edge `6` survives with
`pair = 5`, but handle `5` is dead, so `e.pair.pair == e` fails for edge
`6` and the executable pairing check goes from true to false. -/
theorem deleteEdge_half_dangles_pair :
    pairInvCheck quadC = true ∧
    (deleteEdge quadC 5 false).ok = true ∧
    (deleteEdge quadC 5 false).getE 6 = some ⟨1, 0, 5, none, none, false⟩ ∧
    (deleteEdge quadC 5 false).getE 5 = none ∧
    ¬ pairedAt (deleteEdge quadC 5 false) 6 ⟨1, 0, 5, none, none, false⟩ ∧
    pairInvCheck (deleteEdge quadC 5 false) = false :=
  ⟨by decide, by decide, by decide, by decide, by decide, by decide⟩

/-- C1 (amended): `addTriangle` preserves the pairing invariant — together
with handle-boundedness — on every mesh satisfying both: the reuse branch
only stamps a face on the found pair, the fresh branch allocates a mutually
paired couple at handles above every live edge, and the relinking pass only
rewrites `next`.  (`m1`–`m3` name the meshes after each edge resolution;
the invariant is NOT maintained by `deleteEdge(e, false)`, which deletes
one half of a pair and leaves the survivor dangling.) -/
theorem PairInv_addTriangle (m : Mesh) (a b c va vb vc r0 r1 r2 : Nat)
    (m1 m2 m3 : Mesh)
    (ha : m.verts.get? a = some va) (hb : m.verts.get? b = some vb)
    (hc : m.verts.get? c = some vc)
    (h1 : resolveEdge { m with nextId := m.nextId + 1 } m.nextId va vb = (m1, r0))
    (h2 : resolveEdge m1 m.nextId vb vc = (m2, r1))
    (h3 : resolveEdge m2 m.nextId vc va = (m3, r2))
    (hP : PairInv m) (hB : EdgesBounded m) :
    PairInv (addTriangle m a b c) ∧ EdgesBounded (addTriangle m a b c) := by
  have hm' : PairInv { m with nextId := m.nextId + 1 } ∧
      EdgesBounded { m with nextId := m.nextId + 1 } :=
    ⟨PairInv_of_getE_eq m _ (fun g => rfl) hP,
     EdgesBounded_raiseNextId m _ (Nat.le_succ _) hB⟩
  have q1 := resolveEdge_preserves { m with nextId := m.nextId + 1 } m.nextId va vb
    hm'.1 hm'.2
  rw [h1] at q1
  have q2 := resolveEdge_preserves m1 m.nextId vb vc q1.1 q1.2
  rw [h2] at q2
  have q3 := resolveEdge_preserves m2 m.nextId vc va q2.1 q2.2
  rw [h3] at q3
  have u1 : PairInv (m3.updE r0 (fun e => { e with next := some r1 })) ∧
      EdgesBounded (m3.updE r0 (fun e => { e with next := some r1 })) :=
    ⟨PairInv_updE_keep _ _ _ (fun e => ⟨rfl, rfl, rfl⟩) q3.1,
     EdgesBounded_updE_keep _ _ _ (fun e => rfl) q3.2⟩
  have u2 : PairInv ((m3.updE r0 (fun e => { e with next := some r1 })).updE r1
        (fun e => { e with next := some r2 })) ∧
      EdgesBounded ((m3.updE r0 (fun e => { e with next := some r1 })).updE r1
        (fun e => { e with next := some r2 })) :=
    ⟨PairInv_updE_keep _ _ _ (fun e => ⟨rfl, rfl, rfl⟩) u1.1,
     EdgesBounded_updE_keep _ _ _ (fun e => rfl) u1.2⟩
  have u3 : PairInv (((m3.updE r0 (fun e => { e with next := some r1 })).updE r1
        (fun e => { e with next := some r2 })).updE r2
        (fun e => { e with next := some r0 })) ∧
      EdgesBounded (((m3.updE r0 (fun e => { e with next := some r1 })).updE r1
        (fun e => { e with next := some r2 })).updE r2
        (fun e => { e with next := some r0 })) :=
    ⟨PairInv_updE_keep _ _ _ (fun e => ⟨rfl, rfl, rfl⟩) u2.1,
     EdgesBounded_updE_keep _ _ _ (fun e => rfl) u2.2⟩
  unfold addTriangle
  simp only [ha, hb, hc, Mesh.withOpt, h1, h2, h3]
  exact PB_withOpt_mkface _ _ _ _ u3.1 u3.2

/-- Witness for the amended C1: adding the triangle `(1, 3, 2)` on top of
the canonical quad (one fresh pair `1→3`, two reused diagonal/boundary
pairs) keeps the pairing invariant and handle-boundedness, discharged from
the executable checks on the quad. -/
theorem PairInv_addTriangle_witness :
    PairInv (addTriangle quadC 1 3 2) ∧ EdgesBounded (addTriangle quadC 1 3 2) :=
  PairInv_addTriangle quadC 1 3 2 1 3 2
    (resolveEdge { quadC with nextId := quadC.nextId + 1 } quadC.nextId 1 3).2
    (resolveEdge (resolveEdge { quadC with nextId := quadC.nextId + 1 }
      quadC.nextId 1 3).1 quadC.nextId 3 2).2
    (resolveEdge (resolveEdge (resolveEdge { quadC with nextId := quadC.nextId + 1 }
      quadC.nextId 1 3).1 quadC.nextId 3 2).1 quadC.nextId 2 1).2
    (resolveEdge { quadC with nextId := quadC.nextId + 1 } quadC.nextId 1 3).1
    (resolveEdge (resolveEdge { quadC with nextId := quadC.nextId + 1 }
      quadC.nextId 1 3).1 quadC.nextId 3 2).1
    (resolveEdge (resolveEdge (resolveEdge { quadC with nextId := quadC.nextId + 1 }
      quadC.nextId 1 3).1 quadC.nextId 3 2).1 quadC.nextId 2 1).1
    (by decide) (by decide) (by decide) rfl rfl rfl
    (pairInvCheck_sound quadC (by decide))
    (edgesBoundedCheck_sound quadC (by decide))

/-- C4 (counterexample): the face-count clause is wrong when the two sides
of the edge carry the SAME face.  `addTriangle(0,1,0)` builds a (legal for
the builder) degenerate face `4` whose cycle uses edge `5` and its own pair
`6`, so both sides of `5` carry face `4`; the mesh satisfies the pairing
and face-cycle invariants and the collapse runs without UB — but the face
count drops from `1` to `0`: a decrease of `1`, not of the claimed number
(`2`) of face-carrying sides.  (The second side is re-paired onto a
faceless edge before its face is read, so the shared face is erased once.) -/
theorem collapse_sameface_sides_count :
    pairInvCheck (addTriangle sq4 0 1 0) = true ∧
    faceInvCheck (addTriangle sq4 0 1 0) = true ∧
    (addTriangle sq4 0 1 0).ok = true ∧
    ((addTriangle sq4 0 1 0).getE 5).map (fun e => (e.pair, e.face)) =
      some (6, some 4) ∧
    ((addTriangle sq4 0 1 0).getE 6).map (fun e => (e.pair, e.face)) =
      some (5, some 4) ∧
    (addTriangle sq4 0 1 0).faces.length = 1 ∧
    (collapseEdge (addTriangle sq4 0 1 0) 5).ok = true ∧
    (collapseEdge (addTriangle sq4 0 1 0) 5).faces.length = 0 :=
  ⟨by decide, by decide, by decide, by decide, by decide, by decide,
   by decide, by decide⟩

/-- C4 (amended): on the spec's canonical configurations `collapseEdge`
removes exactly one vertex and one face per DISTINCT adjacent face, and
preserves both graph invariants: collapsing the quad's interior diagonal
`10` (distinct faces `11`/`4` on its two sides) removes 1 vertex and 2
faces; collapsing boundary edge `5` (face `4` on one side, pair `6`
faceless) removes 1 vertex and 1 face; collapsing the degenerate edge
whose two sides carry the same face removes 1 vertex and 1 face.  In every
case the executable pairing and face-cycle checks still hold afterwards. -/
theorem collapseEdge_counts_invariants :
    (pairInvCheck quadC = true ∧ faceInvCheck quadC = true) ∧
    (((quadC.getE 10).map fun e => (e.pair, e.face)) = some (9, some 11) ∧
     ((quadC.getE 9).map fun e => e.face) = some (some 4) ∧
     (collapseEdge quadC 10).ok = true ∧
     (collapseEdge quadC 10).verts.length + 1 = quadC.verts.length ∧
     (collapseEdge quadC 10).faces.length + 2 = quadC.faces.length ∧
     pairInvCheck (collapseEdge quadC 10) = true ∧
     faceInvCheck (collapseEdge quadC 10) = true) ∧
    (((quadC.getE 5).map fun e => (e.pair, e.face)) = some (6, some 4) ∧
     ((quadC.getE 6).map fun e => e.face) = some none ∧
     (collapseEdge quadC 5).ok = true ∧
     (collapseEdge quadC 5).verts.length + 1 = quadC.verts.length ∧
     (collapseEdge quadC 5).faces.length + 1 = quadC.faces.length ∧
     pairInvCheck (collapseEdge quadC 5) = true ∧
     faceInvCheck (collapseEdge quadC 5) = true) ∧
    ((collapseEdge (addTriangle sq4 0 1 0) 5).verts.length + 1 =
       (addTriangle sq4 0 1 0).verts.length ∧
     (collapseEdge (addTriangle sq4 0 1 0) 5).faces.length + 1 =
       (addTriangle sq4 0 1 0).faces.length ∧
     pairInvCheck (collapseEdge (addTriangle sq4 0 1 0) 5) = true ∧
     faceInvCheck (collapseEdge (addTriangle sq4 0 1 0) 5) = true) :=
  ⟨⟨by decide, by decide⟩,
   ⟨by decide, by decide, by decide, by decide, by decide, by decide, by decide⟩,
   ⟨by decide, by decide, by decide, by decide, by decide, by decide, by decide⟩,
   ⟨by decide, by decide, by decide, by decide⟩⟩

end Lvr
